import Mathlib

/-!
Verification of the QOI encoder/decoder from `src/qoi.rs` (qoiconv-rs).

Pixels are modelled as records of four `Nat` channels (each a byte, `< 256`);
byte streams are `List Nat` with every element `< 256`.  Machine `u8`/`i8`
arithmetic is modelled on `Nat`/`Int` with explicit `% 256` wrapping.
Fallible operations return `Except QoiErr`.
-/

set_option maxHeartbeats 1000000
set_option maxRecDepth 100000
set_option linter.unusedVariables false

/-- Error cases of `qoi_encode` / `qoi_decode`, one constructor per `return Err`
site (plus the length assertion and the decoder's slice-indexing panic). -/
inductive QoiErr
  | assertFailed
  | zeroDim
  | tooManyPixels
  | unexpectedHeader
  | badChannels
  | badColorspace
  | zeroDimDecode
  | tooManyPixelsDecode
  | eof
  | indexOutOfBounds
deriving DecidableEq, Repr

/-- `ChanelMode` from the source: `Rgb = 3`, `Rgba = 4`. -/
inductive ChanelMode
  | Rgb
  | Rgba
deriving DecidableEq, Repr

/-- The discriminant value of `ChanelMode` (`as usize` / `as u8`). -/
def ChanelMode.toNat : ChanelMode → Nat
  | .Rgb => 3
  | .Rgba => 4

/-- `Colorspace` from the source: `Srgb = 0`, `Linear = 1`. -/
inductive Colorspace
  | Srgb
  | Linear
deriving DecidableEq, Repr

/-- The discriminant value of `Colorspace` (`as u8`). -/
def Colorspace.toNat : Colorspace → Nat
  | .Srgb => 0
  | .Linear => 1

/-- `QoiDescriptor`: describes the input pixel data. -/
structure QoiDescriptor where
  width : Nat
  height : Nat
  channels : ChanelMode
  colorspace : Colorspace
deriving DecidableEq, Repr

/-- `QoiRGBA`: a pixel with four byte channels. -/
structure QoiRGBA where
  r : Nat
  g : Nat
  b : Nat
  a : Nat
deriving DecidableEq, Repr

/-- `QoiRGBA::new`. -/
def QoiRGBA.new (r g b a : Nat) : QoiRGBA := ⟨r, g, b, a⟩

/-- `color_hash`: `r*3 + g*5 + b*7 + a*11`. -/
def color_hash (pixel : QoiRGBA) : Nat :=
  pixel.r * 3 + pixel.g * 5 + pixel.b * 7 + pixel.a * 11

/-- `QOI_OP_INDEX`: encodes index in pixel buffer `00xxxxxx`. -/
def QOI_OP_INDEX : Nat := 0x00
/-- `QOI_OP_DIFF`: encodes delta of pixels `01xxxxxx`. -/
def QOI_OP_DIFF : Nat := 0x40
/-- `QOI_OP_LUMA`: encodes luma encoding of pixels `10xxxxxx`. -/
def QOI_OP_LUMA : Nat := 0x80
/-- `QOI_OP_RUN`: encodes run encoding of pixels `11xxxxxx`. -/
def QOI_OP_RUN : Nat := 0xc0
/-- `QOI_OP_RGB`: encodes RGB pixel op `11111110`. -/
def QOI_OP_RGB : Nat := 0xfe
/-- `QOI_OP_RGBA`: encodes RGBA pixel op `11111111`. -/
def QOI_OP_RGBA : Nat := 0xff
/-- `QOI_MASK`: selects only the first two bits, `11000000`. -/
def QOI_MASK : Nat := 0xc0

/-- `QOI_HEADER_SIZE`. -/
def QOI_HEADER_SIZE : Nat := 14
/-- `QOI_PIXELS_MAX`: maximum safe pixel count. -/
def QOI_PIXELS_MAX : Nat := 400000000
/-- `QOI_PADDING_SIZE`. -/
def QOI_PADDING_SIZE : Nat := 8
/-- `QOI_PADDING`: the trailing 8 padding bytes. -/
def QOI_PADDING : List Nat := [0, 0, 0, 0, 0, 0, 0, 1]

/-- The 4 magic bytes `"qoif"`. -/
def QOI_MAGIC : List Nat := [0x71, 0x6f, 0x69, 0x66]

/-- A `u8` value reinterpreted `as i8` (two's complement view). -/
def toI8 (b : Nat) : Int :=
  if b % 256 < 128 then (b % 256 : Int) else (b % 256 : Int) - 256

/-- `u8::wrapping_sub`. -/
def u8_wrapping_sub (a b : Nat) : Nat := (a + (256 - b % 256)) % 256

/-- `i8::wrapping_sub`. -/
def i8_wrapping_sub (x y : Int) : Int := (x - y + 128) % 256 - 128

/-- An `i8` value reinterpreted `as u8` (two's complement view). -/
def i8_as_u8 (z : Int) : Nat := (z % 256).toNat

/-- `u8::wrapping_add_signed`. -/
def u8_wrapping_add_signed (b : Nat) (d : Int) : Nat := (((b : Int) + d) % 256).toNat

/-- `u32::to_be_bytes` of `n as u32`. -/
def be32 (n : Nat) : List Nat :=
  [n / 2 ^ 24 % 256, n / 2 ^ 16 % 256, n / 2 ^ 8 % 256, n % 256]

/-- `u32::from_be_bytes`. -/
def from_be32 (b0 b1 b2 b3 : Nat) : Nat :=
  b0 % 256 * 2 ^ 24 + b1 % 256 * 2 ^ 16 + b2 % 256 * 2 ^ 8 + b3 % 256

/-- The flat pixel buffer interpreted as a list of `QoiRGBA` pixels, exactly as
the encoder's per-position reads build them (`Rgb` rows get alpha `255`). -/
def toPixels : ChanelMode → List Nat → List QoiRGBA
  | .Rgb, r :: g :: b :: rest => QoiRGBA.new r g b 255 :: toPixels .Rgb rest
  | .Rgba, r :: g :: b :: a :: rest => QoiRGBA.new r g b a :: toPixels .Rgba rest
  | _, _ => []

/-- The initial (all-zero) pixel placed in every cache slot. -/
def zeroPixel : QoiRGBA := QoiRGBA.new 0 0 0 0

/-- The seed previous-pixel `(0, 0, 0, 255)`. -/
def seedPixel : QoiRGBA := QoiRGBA.new 0 0 0 255

/-- Mutable state threaded through the encoder loop: `pixel_previous`,
the 64-slot `index` cache, and the in-flight `run` counter. -/
structure EncState where
  pixel_previous : QoiRGBA
  index : List QoiRGBA
  run : Nat
deriving DecidableEq, Repr

/-- Source lines 197–223: the diff / luma / full-RGB selection, entered when the
pixel's alpha equals the previous pixel's alpha. -/
def encodeDiffBytes (pixel pixel_previous : QoiRGBA) : List Nat :=
  let dr := toI8 (u8_wrapping_sub pixel.r pixel_previous.r)
  let dg := toI8 (u8_wrapping_sub pixel.g pixel_previous.g)
  let db := toI8 (u8_wrapping_sub pixel.b pixel_previous.b)
  let dg_dr := i8_wrapping_sub dr dg
  let dg_db := i8_wrapping_sub db dg
  if -2 ≤ dr ∧ dr ≤ 1 ∧ -2 ≤ dg ∧ dg ≤ 1 ∧ -2 ≤ db ∧ db ≤ 1 then
    [QOI_OP_DIFF ||| i8_as_u8 (dr + 2) <<< 4 ||| i8_as_u8 (dg + 2) <<< 2 ||| i8_as_u8 (db + 2)]
  else if -8 ≤ dg_dr ∧ dg_dr ≤ 7 ∧ -8 ≤ dg_db ∧ dg_db ≤ 7 ∧ -32 ≤ dg ∧ dg ≤ 31 then
    [QOI_OP_LUMA ||| i8_as_u8 (dg + 32),
     i8_as_u8 (dg_dr + 8) <<< 4 ||| i8_as_u8 (dg_db + 8)]
  else
    [QOI_OP_RGB, pixel.r, pixel.g, pixel.b]

/-- Source lines 190–224: cache-index check, cache update, and the op emitted
for a pixel that differs from the previous one.  Returns the emitted bytes and
the updated cache. -/
def encodeOp (index : List QoiRGBA) (pixel pixel_previous : QoiRGBA) :
    List Nat × List QoiRGBA :=
  let index_pos := color_hash pixel % 64
  if index.getD index_pos zeroPixel = pixel then
    ([QOI_OP_INDEX ||| index_pos], index)
  else
    let index' := index.set index_pos pixel
    if pixel.a = pixel_previous.a then
      (encodeDiffBytes pixel pixel_previous, index')
    else
      ([QOI_OP_RGBA, pixel.r, pixel.g, pixel.b, pixel.a], index')

/-- Source lines 178–226: one iteration of the encoder loop for one pixel.
`isLast` is `pixel_pos == pixel_end`. -/
def encodePixelStep (st : EncState) (pixel : QoiRGBA) (isLast : Bool) :
    List Nat × EncState :=
  if pixel = st.pixel_previous then
    let run := st.run + 1
    if run = 62 ∨ isLast then
      ([QOI_OP_RUN ||| (run - 1)], ⟨pixel, st.index, 0⟩)
    else
      ([], ⟨pixel, st.index, run⟩)
  else
    let flush := if st.run > 0 then [QOI_OP_RUN ||| (st.run - 1)] else []
    let (bytes, index') := encodeOp st.index pixel st.pixel_previous
    (flush ++ bytes, ⟨pixel, index', 0⟩)

/-- The encoder loop over the pixel list (source lines 163–227). -/
def encodeLoop : List QoiRGBA → EncState → List Nat
  | [], _ => []
  | pixel :: rest, st =>
    let step := encodePixelStep st pixel rest.isEmpty
    step.1 ++ encodeLoop rest step.2

/-- `qoi_encode`: encode raw RGB or RGBA pixels into a QOI image in memory.
The length assertion is modelled as the error `assertFailed`. -/
def qoi_encode (pixels : List Nat) (desc : QoiDescriptor) :
    Except QoiErr (List Nat) :=
  if pixels.length ≠ desc.width * desc.height * desc.channels.toNat then
    .error .assertFailed
  else if desc.width = 0 ∨ desc.height = 0 then
    .error .zeroDim
  else if QOI_PIXELS_MAX / desc.width ≤ desc.height then
    .error .tooManyPixels
  else
    .ok (QOI_MAGIC ++ be32 desc.width ++ be32 desc.height
      ++ [desc.channels.toNat, desc.colorspace.toNat]
      ++ encodeLoop (toPixels desc.channels pixels)
           ⟨seedPixel, List.replicate 64 zeroPixel, 0⟩
      ++ QOI_PADDING)

/-- `read_u8!`: read one byte (`read_exact` on a 1-byte buffer). -/
def readU8 : List Nat → Except QoiErr (Nat × List Nat)
  | [] => .error .eof
  | b :: rest => .ok (b, rest)

/-- Read four bytes (`read_exact` on a 4-byte buffer). -/
def read4 : List Nat → Except QoiErr ((Nat × Nat × Nat × Nat) × List Nat)
  | b0 :: b1 :: b2 :: b3 :: rest => .ok ((b0, b1, b2, b3), rest)
  | _ => .error .eof

/-- `read_u32!`: read four bytes and combine them big-endian. -/
def readU32 (data : List Nat) : Except QoiErr (Nat × List Nat) :=
  match read4 data with
  | .ok ((b0, b1, b2, b3), rest) => .ok (from_be32 b0 b1 b2 b3, rest)
  | .error e => .error e

/-- Mutable state threaded through the decoder loop: the 64-slot `index`
cache, the current `pixel`, and the pending `run` counter. -/
structure DecState where
  index : List QoiRGBA
  pixel : QoiRGBA
  run : Nat
deriving DecidableEq, Repr

/-- Source lines 315–346: dispatch on one op byte, producing the updated
state (before the unconditional cache write) and the remaining stream.
The decoder's `index[op_byte as usize]` slice access is modelled by `get?`,
with an out-of-bounds access mapped to the `indexOutOfBounds` error. -/
def decodeOp (op_byte : Nat) (st : DecState) (data : List Nat) :
    Except QoiErr (DecState × List Nat) :=
  if op_byte = QOI_OP_RGB then
    match data with
    | r :: g :: b :: rest => .ok (⟨st.index, ⟨r, g, b, st.pixel.a⟩, st.run⟩, rest)
    | _ => .error .eof
  else if op_byte = QOI_OP_RGBA then
    match data with
    | r :: g :: b :: a :: rest => .ok (⟨st.index, ⟨r, g, b, a⟩, st.run⟩, rest)
    | _ => .error .eof
  else if op_byte &&& QOI_MASK = QOI_OP_INDEX then
    match st.index.get? op_byte with
    | some p => .ok (⟨st.index, p, st.run⟩, data)
    | none => .error .indexOutOfBounds
  else if op_byte &&& QOI_MASK = QOI_OP_DIFF then
    let dr := toI8 (op_byte >>> 4 &&& 0x03) - 2
    let dg := toI8 (op_byte >>> 2 &&& 0x03) - 2
    let db := toI8 (op_byte &&& 0x03) - 2
    .ok (⟨st.index,
          ⟨u8_wrapping_add_signed st.pixel.r dr,
           u8_wrapping_add_signed st.pixel.g dg,
           u8_wrapping_add_signed st.pixel.b db, st.pixel.a⟩, st.run⟩, data)
  else if op_byte &&& QOI_MASK = QOI_OP_LUMA then
    match data with
    | delta_byte :: rest =>
      let dg := toI8 (op_byte &&& 0x3f) - 32
      let dr := dg - 8 + toI8 (delta_byte >>> 4 &&& 0x0f)
      let db := dg - 8 + toI8 (delta_byte &&& 0x0f)
      .ok (⟨st.index,
            ⟨u8_wrapping_add_signed st.pixel.r dr,
             u8_wrapping_add_signed st.pixel.g dg,
             u8_wrapping_add_signed st.pixel.b db, st.pixel.a⟩, st.run⟩, rest)
    | _ => .error .eof
  else if op_byte &&& QOI_MASK = QOI_OP_RUN then
    .ok (⟨st.index, st.pixel, op_byte &&& 0x3f⟩, data)
  else
    .ok (st, data)

/-- The bytes pushed to the output per pixel (r, g, b, and a when RGBA). -/
def pushPixel (channels : ChanelMode) (p : QoiRGBA) : List Nat :=
  [p.r, p.g, p.b] ++ (if channels.toNat = 4 then [p.a] else [])

/-- The decoder loop (source lines 309–358); one fuel unit per iteration of
`(0..pixel_len).step_by(channels)`.  Returns the output bytes and the
remaining (unread) stream. -/
def decodeLoop (channels : ChanelMode) :
    Nat → DecState → List Nat → Except QoiErr (List Nat × List Nat)
  | 0, _, data => .ok ([], data)
  | fuel + 1, st, data =>
    if st.run > 0 then
      match decodeLoop channels fuel ⟨st.index, st.pixel, st.run - 1⟩ data with
      | .ok (out, rest) => .ok (pushPixel channels st.pixel ++ out, rest)
      | .error e => .error e
    else
      match readU8 data with
      | .error e => .error e
      | .ok (op_byte, data') =>
        match decodeOp op_byte st data' with
        | .error e => .error e
        | .ok (st', data'') =>
          let st'' : DecState :=
            ⟨st'.index.set (color_hash st'.pixel % 64) st'.pixel, st'.pixel, st'.run⟩
          match decodeLoop channels fuel st'' data'' with
          | .ok (out, rest) => .ok (pushPixel channels st'.pixel ++ out, rest)
          | .error e => .error e

/-- Number of iterations of `(0..len).step_by(c)`. -/
def stepCount (len c : Nat) : Nat := (len + c - 1) / c

/-- Source lines 265–277: resolve the channel mode.  With a forced mode the
channel byte is read and discarded; without one the byte selects the mode and
anything other than 3 or 4 is rejected. -/
def readChannels : Option ChanelMode → List Nat → Except QoiErr (ChanelMode × List Nat)
  | some channel, data =>
    match readU8 data with
    | .ok (_, d) => .ok (channel, d)
    | .error e => .error e
  | none, data =>
    match readU8 data with
    | .ok (3, d) => .ok (ChanelMode.Rgb, d)
    | .ok (4, d) => .ok (ChanelMode.Rgba, d)
    | .ok (_, _) => .error .badChannels
    | .error e => .error e

/-- Source lines 279–285: resolve the colorspace byte. -/
def readColorspace (b : Nat) : Except QoiErr Colorspace :=
  match b with
  | 0 => .ok Colorspace.Srgb
  | 1 => .ok Colorspace.Linear
  | _ => .error .badColorspace

/-- `qoi_decode` including the trailing unread stream (the source's `data`
reader simply stops being read; padding is never consumed). -/
def qoi_decodeAux (data : List Nat) (channels : Option ChanelMode) :
    Except QoiErr ((List Nat × QoiDescriptor) × List Nat) :=
  match read4 data with
  | .error e => .error e
  | .ok ((m0, m1, m2, m3), data) =>
    if from_be32 m0 m1 m2 m3 ≠ from_be32 0x71 0x6f 0x69 0x66 then
      .error .unexpectedHeader
    else
      match readU32 data with
      | .error e => .error e
      | .ok (width, data) =>
        match readU32 data with
        | .error e => .error e
        | .ok (height, data) =>
          match readChannels channels data with
          | .error e => .error e
          | .ok (channels, data) =>
            match readU8 data with
            | .error e => .error e
            | .ok (csByte, data) =>
              match readColorspace csByte with
              | .error e => .error e
              | .ok colorspace =>
                if width = 0 ∨ height = 0 then
                  .error .zeroDimDecode
                else if QOI_PIXELS_MAX / width ≤ height then
                  .error .tooManyPixelsDecode
                else
                  let pixel_len := width * height * channels.toNat
                  match decodeLoop channels (stepCount pixel_len channels.toNat)
                      ⟨List.replicate 64 zeroPixel, seedPixel, 0⟩ data with
                  | .error e => .error e
                  | .ok (pixels, rest) =>
                    .ok ((pixels, ⟨width, height, channels, colorspace⟩), rest)

/-- `qoi_decode`: decode a QOI image from a byte stream. -/
def qoi_decode (data : List Nat) (channels : Option ChanelMode) :
    Except QoiErr (List Nat × QoiDescriptor) :=
  match qoi_decodeAux data channels with
  | .ok (res, _) => .ok res
  | .error e => .error e

/-- Variant of `encodeOp` with the alpha-changed (`QOI_OP_RGBA`) branch
removed: used to state that in RGB mode that branch of the encoder is never
taken. -/
def encodeOpNoAlpha (index : List QoiRGBA) (pixel pixel_previous : QoiRGBA) :
    List Nat × List QoiRGBA :=
  let index_pos := color_hash pixel % 64
  if index.getD index_pos zeroPixel = pixel then
    ([QOI_OP_INDEX ||| index_pos], index)
  else
    (encodeDiffBytes pixel pixel_previous, index.set index_pos pixel)

/-- `encodePixelStep` built on `encodeOpNoAlpha`. -/
def encodePixelStepNoAlpha (st : EncState) (pixel : QoiRGBA) (isLast : Bool) :
    List Nat × EncState :=
  if pixel = st.pixel_previous then
    let run := st.run + 1
    if run = 62 ∨ isLast then
      ([QOI_OP_RUN ||| (run - 1)], ⟨pixel, st.index, 0⟩)
    else
      ([], ⟨pixel, st.index, run⟩)
  else
    let flush := if st.run > 0 then [QOI_OP_RUN ||| (st.run - 1)] else []
    let (bytes, index') := encodeOpNoAlpha st.index pixel st.pixel_previous
    (flush ++ bytes, ⟨pixel, index', 0⟩)

/-- `encodeLoop` built on `encodePixelStepNoAlpha`. -/
def encodeLoopNoAlpha : List QoiRGBA → EncState → List Nat
  | [], _ => []
  | pixel :: rest, st =>
    let step := encodePixelStepNoAlpha st pixel rest.isEmpty
    step.1 ++ encodeLoopNoAlpha rest step.2

/-- `qoi_encode` built on the RGBA-free loop `encodeLoopNoAlpha`. -/
def qoi_encode_noRGBA (pixels : List Nat) (desc : QoiDescriptor) :
    Except QoiErr (List Nat) :=
  if pixels.length ≠ desc.width * desc.height * desc.channels.toNat then
    .error .assertFailed
  else if desc.width = 0 ∨ desc.height = 0 then
    .error .zeroDim
  else if QOI_PIXELS_MAX / desc.width ≤ desc.height then
    .error .tooManyPixels
  else
    .ok (QOI_MAGIC ++ be32 desc.width ++ be32 desc.height
      ++ [desc.channels.toNat, desc.colorspace.toNat]
      ++ encodeLoopNoAlpha (toPixels desc.channels pixels)
           ⟨seedPixel, List.replicate 64 zeroPixel, 0⟩
      ++ QOI_PADDING)

/-- A pixel whose four channels are all bytes. -/
def PixBound (p : QoiRGBA) : Prop :=
  p.r < 256 ∧ p.g < 256 ∧ p.b < 256 ∧ p.a < 256

/-- The byte output of the decoder for a list of pixels. -/
def flattenPixels (ch : ChanelMode) : List QoiRGBA → List Nat
  | [] => []
  | p :: rest => pushPixel ch p ++ flattenPixels ch rest

/-- Coupling invariant between the encoder cache `ce` and the decoder cache
`cd`.  The decoder writes its cache on every op (including run ops), the
encoder only on non-hit differing pixels, so the two caches agree everywhere
except possibly at the seed pixel's hash slot, which the decoder may have
filled with the seed while the encoder still holds the initial zero pixel.
The last clause records that the current previous pixel is cached by the
encoder unless it is still the untouched seed. -/
def SimInv (prev : QoiRGBA) (ce cd : List QoiRGBA) : Prop :=
  ce.length = 64 ∧ cd.length = 64 ∧
  (∀ p ∈ ce, PixBound p) ∧ (∀ p ∈ cd, PixBound p) ∧
  (∀ i, i < 64 →
    cd.getD i zeroPixel = ce.getD i zeroPixel ∨
    (i = color_hash seedPixel % 64 ∧ cd.getD i zeroPixel = seedPixel ∧
     ce.getD i zeroPixel = zeroPixel)) ∧
  (ce.getD (color_hash prev % 64) zeroPixel = prev ∨
   (prev = seedPixel ∧
    ce.getD (color_hash seedPixel % 64) zeroPixel = zeroPixel))

/-!  ## Theorems  -/

/-- Bit-level facts about an encoder run byte `QOI_OP_RUN ||| r`, `r < 62`. -/
theorem run_byte_facts (r : Nat) (h : r < 62) :
    QOI_OP_RUN ||| r ≠ QOI_OP_RGB ∧ QOI_OP_RUN ||| r ≠ QOI_OP_RGBA ∧
    ((QOI_OP_RUN ||| r) &&& QOI_MASK) = QOI_OP_RUN ∧
    ((QOI_OP_RUN ||| r) &&& 0x3f) = r :=
  (by decide :
    ∀ i : Fin 62, QOI_OP_RUN ||| i.val ≠ QOI_OP_RGB ∧
      QOI_OP_RUN ||| i.val ≠ QOI_OP_RGBA ∧
      ((QOI_OP_RUN ||| i.val) &&& QOI_MASK) = QOI_OP_RUN ∧
      ((QOI_OP_RUN ||| i.val) &&& 0x3f) = i.val) ⟨r, h⟩

/-- Bit-level facts about an encoder index byte `i < 64`. -/
theorem idx_byte_facts (i : Nat) (h : i < 64) :
    QOI_OP_INDEX ||| i = i ∧ i ≠ QOI_OP_RGB ∧ i ≠ QOI_OP_RGBA ∧
    (i &&& QOI_MASK) = QOI_OP_INDEX :=
  (by decide :
    ∀ j : Fin 64, QOI_OP_INDEX ||| j.val = j.val ∧ j.val ≠ QOI_OP_RGB ∧
      j.val ≠ QOI_OP_RGBA ∧ (j.val &&& QOI_MASK) = QOI_OP_INDEX) ⟨i, h⟩

/-- Bit-level facts about an encoder diff byte with 2-bit fields `a, b, c`. -/
theorem diff_byte_facts (a b c : Nat) (ha : a < 4) (hb : b < 4) (hc : c < 4) :
    QOI_OP_DIFF ||| a <<< 4 ||| b <<< 2 ||| c ≠ QOI_OP_RGB ∧
    QOI_OP_DIFF ||| a <<< 4 ||| b <<< 2 ||| c ≠ QOI_OP_RGBA ∧
    ((QOI_OP_DIFF ||| a <<< 4 ||| b <<< 2 ||| c) &&& QOI_MASK) = QOI_OP_DIFF ∧
    ((QOI_OP_DIFF ||| a <<< 4 ||| b <<< 2 ||| c) >>> 4 &&& 0x03) = a ∧
    ((QOI_OP_DIFF ||| a <<< 4 ||| b <<< 2 ||| c) >>> 2 &&& 0x03) = b ∧
    ((QOI_OP_DIFF ||| a <<< 4 ||| b <<< 2 ||| c) &&& 0x03) = c :=
  (by decide :
    ∀ x y z : Fin 4, QOI_OP_DIFF ||| x.val <<< 4 ||| y.val <<< 2 ||| z.val ≠ QOI_OP_RGB ∧
      QOI_OP_DIFF ||| x.val <<< 4 ||| y.val <<< 2 ||| z.val ≠ QOI_OP_RGBA ∧
      ((QOI_OP_DIFF ||| x.val <<< 4 ||| y.val <<< 2 ||| z.val) &&& QOI_MASK) = QOI_OP_DIFF ∧
      ((QOI_OP_DIFF ||| x.val <<< 4 ||| y.val <<< 2 ||| z.val) >>> 4 &&& 0x03) = x.val ∧
      ((QOI_OP_DIFF ||| x.val <<< 4 ||| y.val <<< 2 ||| z.val) >>> 2 &&& 0x03) = y.val ∧
      ((QOI_OP_DIFF ||| x.val <<< 4 ||| y.val <<< 2 ||| z.val) &&& 0x03) = z.val)
    ⟨a, ha⟩ ⟨b, hb⟩ ⟨c, hc⟩

/-- Bit-level facts about an encoder luma op byte with 6-bit field `d`. -/
theorem luma1_byte_facts (d : Nat) (h : d < 64) :
    QOI_OP_LUMA ||| d ≠ QOI_OP_RGB ∧ QOI_OP_LUMA ||| d ≠ QOI_OP_RGBA ∧
    ((QOI_OP_LUMA ||| d) &&& QOI_MASK) = QOI_OP_LUMA ∧
    ((QOI_OP_LUMA ||| d) &&& 0x3f) = d :=
  (by decide :
    ∀ j : Fin 64, QOI_OP_LUMA ||| j.val ≠ QOI_OP_RGB ∧
      QOI_OP_LUMA ||| j.val ≠ QOI_OP_RGBA ∧
      ((QOI_OP_LUMA ||| j.val) &&& QOI_MASK) = QOI_OP_LUMA ∧
      ((QOI_OP_LUMA ||| j.val) &&& 0x3f) = j.val) ⟨d, h⟩

/-- Bit-level facts about the luma second byte with nibbles `x, y`. -/
theorem luma2_byte_facts (x y : Nat) (hx : x < 16) (hy : y < 16) :
    ((x <<< 4 ||| y) >>> 4 &&& 0x0f) = x ∧ ((x <<< 4 ||| y) &&& 0x0f) = y :=
  (by decide :
    ∀ u v : Fin 16, ((u.val <<< 4 ||| v.val) >>> 4 &&& 0x0f) = u.val ∧
      ((u.val <<< 4 ||| v.val) &&& 0x0f) = v.val) ⟨x, hx⟩ ⟨y, hy⟩

/-- A byte whose two top bits are clear is below 64. -/
theorem masked_byte_lt_64 (b : Nat) (hb : b < 256) (h : (b &&& QOI_MASK) = QOI_OP_INDEX) :
    b < 64 :=
  (by decide : ∀ j : Fin 256, (j.val &&& QOI_MASK) = QOI_OP_INDEX → j.val < 64) ⟨b, hb⟩ h

/-- Round-trip of the `i8 → u8 → i8` reinterpretation on in-range values. -/
theorem toI8_i8_as_u8 (z : Int) (h1 : -128 ≤ z) (h2 : z ≤ 127) :
    toI8 (i8_as_u8 z) = z := by
  unfold toI8 i8_as_u8
  split <;> omega

/-- `i8_as_u8` yields a byte. -/
theorem i8_as_u8_lt (z : Int) : i8_as_u8 z < 256 := by
  unfold i8_as_u8; omega

/-- `toI8` stays in the `i8` range. -/
theorem toI8_range (b : Nat) : -128 ≤ toI8 b ∧ toI8 b ≤ 127 := by
  unfold toI8; split <;> omega

/-- `toI8` of a wrapping `u8` difference is the difference modulo 256. -/
theorem toI8_wrapping_sub_mod (a b : Nat) (ha : a < 256) (hb : b < 256) :
    toI8 (u8_wrapping_sub a b) % 256 = ((a : Int) - b) % 256 := by
  unfold toI8 u8_wrapping_sub
  split <;> omega

/-- A wrapping `i8` difference is the difference modulo 256. -/
theorem i8_wrapping_sub_mod (x y : Int) :
    i8_wrapping_sub x y % 256 = (x - y) % 256 := by
  unfold i8_wrapping_sub; omega

/-- A wrapping signed add recovers the target byte when the delta is congruent
to the true difference modulo 256. -/
theorem u8_wrapping_add_signed_eq (rc rp : Nat) (d : Int) (hc : rc < 256)
    (hp : rp < 256) (hd : d % 256 = ((rc : Int) - rp) % 256) :
    u8_wrapping_add_signed rp d = rc := by
  unfold u8_wrapping_add_signed; omega

/-- `qoi_encode` hits the `tooManyPixels` branch when its first two checks
pass and `QOI_PIXELS_MAX / width ≤ height`. -/
theorem qoi_encode_eq_tooMany (P : List Nat) (D : QoiDescriptor)
    (hlen : P.length = D.width * D.height * D.channels.toNat)
    (hw : D.width ≠ 0) (hh : D.height ≠ 0)
    (hge : QOI_PIXELS_MAX / D.width ≤ D.height) :
    qoi_encode P D = .error .tooManyPixels := by
  simp [qoi_encode, hlen, hw, hh, hge]

/-- C2 (counterexample): the pixel-count gate is `height >= QOI_PIXELS_MAX / width`
with integer division, so width 3 and height 133333333 (product 399999999,
below the maximum) is nevertheless rejected. -/
theorem qoi_encode_limit_counterexample :
    3 * 133333333 < QOI_PIXELS_MAX ∧
    qoi_encode (List.replicate (3 * 133333333 * 3) 0)
      ⟨3, 133333333, ChanelMode.Rgb, Colorspace.Linear⟩ = .error .tooManyPixels := by
  constructor
  · norm_num [QOI_PIXELS_MAX]
  · exact qoi_encode_eq_tooMany _ _ (by rw [List.length_replicate]; rfl)
      (by norm_num) (by norm_num) (by norm_num [QOI_PIXELS_MAX])

/-- C2 (amended): with the length precondition and nonzero dimensions,
`qoi_encode` fails exactly when `height ≥ QOI_PIXELS_MAX / width` (integer
division); in particular it fails whenever `width*height ≥ QOI_PIXELS_MAX`. -/
theorem qoi_encode_pixel_limit (P : List Nat) (D : QoiDescriptor)
    (hlen : P.length = D.width * D.height * D.channels.toNat)
    (hw : D.width ≠ 0) (hh : D.height ≠ 0) :
    ((∃ e, qoi_encode P D = .error e) ↔ QOI_PIXELS_MAX / D.width ≤ D.height) ∧
    (QOI_PIXELS_MAX ≤ D.width * D.height → ∃ e, qoi_encode P D = .error e) := by
  have hiff : (∃ e, qoi_encode P D = .error e) ↔ QOI_PIXELS_MAX / D.width ≤ D.height := by
    constructor
    · rintro ⟨e, he⟩
      by_contra hlt
      simp [qoi_encode, hlen, hw, hh, hlt] at he
    · intro hge
      exact ⟨.tooManyPixels, by simp [qoi_encode, hlen, hw, hh, hge]⟩
  refine ⟨hiff, fun hbig => hiff.mpr ?_⟩
  calc QOI_PIXELS_MAX / D.width ≤ D.width * D.height / D.width :=
        Nat.div_le_div_right hbig
    _ = D.height := Nat.mul_div_cancel_left _ (Nat.pos_of_ne_zero hw)

/-- C2 (witness): the amended theorem applied at width 1, height 1. -/
theorem qoi_encode_pixel_limit_witness :
    ((∃ e, qoi_encode [0, 0, 0] ⟨1, 1, ChanelMode.Rgb, Colorspace.Srgb⟩ = .error e) ↔
      QOI_PIXELS_MAX / 1 ≤ 1) ∧
    (QOI_PIXELS_MAX ≤ 1 * 1 →
      ∃ e, qoi_encode [0, 0, 0] ⟨1, 1, ChanelMode.Rgb, Colorspace.Srgb⟩ = .error e) :=
  qoi_encode_pixel_limit [0, 0, 0] ⟨1, 1, ChanelMode.Rgb, Colorspace.Srgb⟩
    (by decide) (by decide) (by decide)

/-- C3: when the current pixel differs from the previous one and the cache
slot at `color_hash pixel % 64` already holds the pixel, the encoder emits
only the pending run flush followed by the single index op byte — regardless
of whether the diff or luma bounds would also hold. -/
theorem encode_cache_hit_priority (st : EncState) (pixel : QoiRGBA) (isLast : Bool)
    (hne : pixel ≠ st.pixel_previous)
    (hhit : st.index.getD (color_hash pixel % 64) zeroPixel = pixel) :
    encodePixelStep st pixel isLast =
      ((if st.run > 0 then [QOI_OP_RUN ||| (st.run - 1)] else []) ++
        [QOI_OP_INDEX ||| (color_hash pixel % 64)],
       ⟨pixel, st.index, 0⟩) := by
  rw [List.getD_eq_getElem?_getD] at hhit
  simp [encodePixelStep, encodeOp, hne, hhit]

/-- C3 (witness): a stale cache hit on a pixel that also satisfies the diff
bounds (delta `(+1, 0, 0)` from the previous pixel) chooses the index op. -/
theorem encode_cache_hit_priority_witness :
    encodePixelStep
        ⟨QoiRGBA.new 0 0 0 255,
         (List.replicate 64 zeroPixel).set (color_hash (QoiRGBA.new 1 0 0 255) % 64)
           (QoiRGBA.new 1 0 0 255), 0⟩
        (QoiRGBA.new 1 0 0 255) false =
      ((if (0 : Nat) > 0 then [QOI_OP_RUN ||| (0 - 1)] else []) ++
        [QOI_OP_INDEX ||| (color_hash (QoiRGBA.new 1 0 0 255) % 64)],
       ⟨QoiRGBA.new 1 0 0 255,
        (List.replicate 64 zeroPixel).set (color_hash (QoiRGBA.new 1 0 0 255) % 64)
          (QoiRGBA.new 1 0 0 255), 0⟩) :=
  encode_cache_hit_priority _ _ false (by decide) (by decide)

/-- A run of `n` copies of the previous pixel followed by a differing pixel,
where the in-flight run reaches exactly 62, flushes one byte `QOI_OP_RUN ||| 61`
and then continues with the differing pixel from a zero-run state. -/
theorem encodeLoop_run62 (n : Nat) :
    ∀ (st : EncState) (q : QoiRGBA), st.run + n = 62 → 1 ≤ n →
      q ≠ st.pixel_previous →
      encodeLoop (List.replicate n st.pixel_previous ++ [q]) st =
        (QOI_OP_RUN ||| 61) :: encodeLoop [q] ⟨st.pixel_previous, st.index, 0⟩ := by
  induction n with
  | zero => intro st q hsum h1; omega
  | succ m ih =>
    intro st q hsum h1 hq
    rw [List.replicate_succ, List.cons_append]
    rcases Nat.eq_zero_or_pos m with hm0 | hmpos
    · subst hm0
      have hrun : st.run = 61 := by omega
      simp [encodeLoop, encodePixelStep, hrun]
    · have hlt : st.run + 1 ≠ 62 := by omega
      have hne : (List.replicate m st.pixel_previous ++ [q]).isEmpty = false := by
        cases m with
        | zero => rfl
        | succ k => rw [List.replicate_succ]; rfl
      simp only [encodeLoop, encodePixelStep, if_pos rfl, hne, hlt, or_false,
        if_false, List.nil_append]
      exact ih ⟨st.pixel_previous, st.index, st.run + 1⟩ q
        (show st.run + 1 + m = 62 by omega) hmpos hq

/-- A buffer ending in a run of copies of the previous pixel flushes the run
as one byte when the stream ends. -/
theorem encodeLoop_run_tail (n : Nat) :
    ∀ st : EncState, st.run + n ≤ 62 → 1 ≤ n →
      encodeLoop (List.replicate n st.pixel_previous) st =
        [QOI_OP_RUN ||| (st.run + n - 1)] := by
  induction n with
  | zero => intro st hle h1; omega
  | succ m ih =>
    intro st hle h1
    rw [List.replicate_succ]
    rcases Nat.eq_zero_or_pos m with hm0 | hmpos
    · subst hm0
      simp [encodeLoop, encodePixelStep]
    · have hlt : st.run + 1 ≠ 62 := by omega
      have hne : (List.replicate m st.pixel_previous).isEmpty = false := by
        cases m with
        | zero => omega
        | succ k => rw [List.replicate_succ]; rfl
      have h := ih ⟨st.pixel_previous, st.index, st.run + 1⟩
        (show st.run + 1 + m ≤ 62 by omega) hmpos
      dsimp only at h
      simp [encodeLoop, encodePixelStep, hne, hlt, h]

/-- C4: run handling of the encoder.  (i) A pixel equal to the previous one
with the run not reaching 62 and not at the last pixel emits nothing and only
increments the run counter.  (ii) Exactly 62 identical pixels followed by one
differing pixel produce exactly one run byte with low six bits 61, followed by
the encoding of the differing pixel.  (iii) A run still in flight at the last
pixel is flushed as a single byte `QOI_OP_RUN ||| (n - 1)`, never dropped. -/
theorem encode_run_semantics :
    (∀ (st : EncState) (p : QoiRGBA), p = st.pixel_previous → st.run + 1 ≠ 62 →
       encodePixelStep st p false = ([], ⟨p, st.index, st.run + 1⟩)) ∧
    (∀ (st : EncState) (q : QoiRGBA), st.run = 0 → q ≠ st.pixel_previous →
       encodeLoop (List.replicate 62 st.pixel_previous ++ [q]) st =
         (QOI_OP_RUN ||| 61) :: encodeLoop [q] st) ∧
    (∀ (st : EncState) (n : Nat), st.run = 0 → 1 ≤ n → n ≤ 62 →
       encodeLoop (List.replicate n st.pixel_previous) st =
         [QOI_OP_RUN ||| (n - 1)]) := by
  refine ⟨?_, ?_, ?_⟩
  · intro st p hp hlt
    simp [encodePixelStep, hp, hlt]
  · intro st q hrun hq
    obtain ⟨pv, ix, rn⟩ := st
    dsimp only at hrun
    subst hrun
    exact encodeLoop_run62 62 ⟨pv, ix, 0⟩ q (show 0 + 62 = 62 by omega)
      (by omega) hq
  · intro st n hrun h1 h62
    have h := encodeLoop_run_tail n st (by omega) h1
    rw [h, hrun]
    norm_num

/-- C4 (witness): the three parts applied at concrete states: a second
repeated pixel emits nothing; 62 black pixels then one red pixel emit the run
byte 253 and then red's op bytes; three trailing repeats flush as one byte. -/
theorem encode_run_semantics_witness :
    encodePixelStep ⟨seedPixel, List.replicate 64 zeroPixel, 1⟩ seedPixel false =
      ([], ⟨seedPixel, List.replicate 64 zeroPixel, 2⟩) ∧
    encodeLoop (List.replicate 62 seedPixel ++ [QoiRGBA.new 200 5 5 255])
        ⟨seedPixel, List.replicate 64 zeroPixel, 0⟩ =
      (QOI_OP_RUN ||| 61) :: encodeLoop [QoiRGBA.new 200 5 5 255]
        ⟨seedPixel, List.replicate 64 zeroPixel, 0⟩ ∧
    encodeLoop (List.replicate 3 seedPixel) ⟨seedPixel, List.replicate 64 zeroPixel, 0⟩ =
      [QOI_OP_RUN ||| (3 - 1)] :=
  ⟨encode_run_semantics.1 ⟨seedPixel, List.replicate 64 zeroPixel, 1⟩ seedPixel rfl
      (by decide),
   encode_run_semantics.2.1 ⟨seedPixel, List.replicate 64 zeroPixel, 0⟩
      (QoiRGBA.new 200 5 5 255) rfl (by decide),
   encode_run_semantics.2.2 ⟨seedPixel, List.replicate 64 zeroPixel, 0⟩ 3 rfl
      (by decide) (by decide)⟩

/-- C5: the concrete 5-pixel RGB scenario.  The encoded stream starts with
`"qoif"`, big-endian 5 and 1, then bytes 3 and 1, ends with the 8-byte
padding, and decoding it with no forced mode reproduces the 15 input bytes
and the descriptor exactly. -/
theorem qoi_concrete_scenario :
    ∃ B : List Nat,
      qoi_encode [255, 0, 0, 15, 1, 255, 255, 255, 191, 255, 0, 0, 15, 1, 74]
        ⟨5, 1, ChanelMode.Rgb, Colorspace.Linear⟩ = .ok B ∧
      B.take 14 = QOI_MAGIC ++ be32 5 ++ be32 1 ++ [3, 1] ∧
      B.drop (B.length - 8) = QOI_PADDING ∧
      qoi_decode B none =
        .ok ([255, 0, 0, 15, 1, 255, 255, 255, 191, 255, 0, 0, 15, 1, 74],
             ⟨5, 1, ChanelMode.Rgb, Colorspace.Linear⟩) := by
  refine ⟨[113, 111, 105, 102, 0, 0, 0, 5, 0, 0, 0, 1, 3, 1, 90, 254, 15, 1, 255,
           254, 255, 255, 191, 50, 254, 15, 1, 74, 0, 0, 0, 0, 0, 0, 0, 1],
          ?_, ?_, ?_, ?_⟩
  · rfl
  · rfl
  · rfl
  · rfl

/-- C8: `qoi_encode` rejects a zero width or height with the `zeroDim` error
(under the length precondition), and `qoi_decode` returns an error on any
byte stream whose first four bytes are not `"qoif"` (either the read-exact
failure when fewer than four bytes exist, or the bad-magic error). -/
theorem qoi_rejects_invalid (P : List Nat) (D : QoiDescriptor)
    (data : List Nat) (ch : Option ChanelMode)
    (hlen : P.length = D.width * D.height * D.channels.toNat)
    (hbytes : ∀ b ∈ data, b < 256) :
    (D.width = 0 ∨ D.height = 0 → qoi_encode P D = .error .zeroDim) ∧
    (data.take 4 ≠ QOI_MAGIC →
      qoi_decode data ch = .error .eof ∨
      qoi_decode data ch = .error .unexpectedHeader) := by
  constructor
  · intro hdim
    simp [qoi_encode, hlen, hdim]
  · intro hm
    match data, hbytes, hm with
    | [], _, _ => left; rfl
    | [b0], _, _ => left; rfl
    | [b0, b1], _, _ => left; rfl
    | [b0, b1, b2], _, _ => left; rfl
    | b0 :: b1 :: b2 :: b3 :: rest, hbytes, hm =>
      right
      have h0 : b0 < 256 := hbytes _ (by simp)
      have h1 : b1 < 256 := hbytes _ (by simp)
      have h2 : b2 < 256 := hbytes _ (by simp)
      have h3 : b3 < 256 := hbytes _ (by simp)
      have hm' : ¬(b0 = 113 ∧ b1 = 111 ∧ b2 = 105 ∧ b3 = 102) := by
        intro hc
        exact hm (by simp [QOI_MAGIC, hc.1, hc.2.1, hc.2.2.1, hc.2.2.2])
      have hne : from_be32 b0 b1 b2 b3 ≠ from_be32 0x71 0x6f 0x69 0x66 := by
        unfold from_be32
        omega
      simp [qoi_decode, qoi_decodeAux, read4, hne]

/-- C8 (witness): width 0 is rejected, and a stream led by `"QOIF"` (wrong
case) is rejected. -/
theorem qoi_rejects_invalid_witness :
    ((0 : Nat) = 0 ∨ (7 : Nat) = 0 →
      qoi_encode [] ⟨0, 7, ChanelMode.Rgb, Colorspace.Srgb⟩ = .error .zeroDim) ∧
    ([81, 79, 73, 70].take 4 ≠ QOI_MAGIC →
      qoi_decode [81, 79, 73, 70] none = .error .eof ∨
      qoi_decode [81, 79, 73, 70] none = .error .unexpectedHeader) :=
  qoi_rejects_invalid [] ⟨0, 7, ChanelMode.Rgb, Colorspace.Srgb⟩
    [81, 79, 73, 70] none (by decide) (by decide)

/-- Every pixel produced by the RGB chunking has alpha 255. -/
theorem toPixels_rgb_alpha : ∀ (P : List Nat), ∀ p ∈ toPixels ChanelMode.Rgb P, p.a = 255
  | r :: g :: b :: rest => by
    intro p hp
    simp only [toPixels, List.mem_cons] at hp
    rcases hp with h | h
    · subst h; rfl
    · exact toPixels_rgb_alpha rest p h
  | [] => by intro p hp; simp [toPixels] at hp
  | [_] => by intro p hp; simp [toPixels] at hp
  | [_, _] => by intro p hp; simp [toPixels] at hp

/-- When the pixel's alpha equals the previous pixel's alpha, the encoder's
op selection never enters the `QOI_OP_RGBA` branch. -/
theorem encodeOp_noAlpha_eq (index : List QoiRGBA) (pixel pixel_previous : QoiRGBA)
    (h : pixel.a = pixel_previous.a) :
    encodeOp index pixel pixel_previous = encodeOpNoAlpha index pixel pixel_previous := by
  simp [encodeOp, encodeOpNoAlpha, h]

/-- After one encoder step the previous pixel is the pixel just processed. -/
theorem encodePixelStep_prev (st : EncState) (p : QoiRGBA) (l : Bool) :
    (encodePixelStep st p l).2.pixel_previous = p := by
  unfold encodePixelStep
  split
  · dsimp only
    split <;> rfl
  · rcases hE : encodeOp st.index p st.pixel_previous with ⟨bytes, ix⟩
    dsimp only

/-- With all-alpha-255 pixels the encoder loop coincides with the RGBA-free
variant (the alpha-changed branch is never taken), and the previous pixel's
alpha stays 255 throughout. -/
theorem encodeLoop_noAlpha_eq : ∀ (L : List QoiRGBA) (st : EncState),
    (∀ p ∈ L, p.a = 255) → st.pixel_previous.a = 255 →
    encodeLoop L st = encodeLoopNoAlpha L st
  | [], st => by intro _ _; rfl
  | p :: rest, st => by
    intro hL hprev
    have hpa : p.a = 255 := hL p (by simp)
    have hstep : encodePixelStep st p rest.isEmpty =
        encodePixelStepNoAlpha st p rest.isEmpty := by
      unfold encodePixelStep encodePixelStepNoAlpha
      rw [encodeOp_noAlpha_eq st.index p st.pixel_previous (by rw [hpa, hprev])]
    have hrest := encodeLoop_noAlpha_eq rest (encodePixelStep st p rest.isEmpty).2
      (fun q hq => hL q (by simp [hq]))
      (by rw [encodePixelStep_prev]; exact hpa)
    simp only [encodeLoop, encodeLoopNoAlpha]
    rw [← hstep, hrest, hstep]

/-- C10: in RGB mode every constructed pixel carries alpha 255 (as does the
seed), so `qoi_encode` agrees with `qoi_encode_noRGBA`, the encoder whose
5-byte `QOI_OP_RGBA` branch has been removed: that branch is never taken. -/
theorem qoi_encode_rgb_no_rgba (P : List Nat) (D : QoiDescriptor)
    (hch : D.channels = ChanelMode.Rgb) :
    (∀ p ∈ toPixels ChanelMode.Rgb P, p.a = 255) ∧
    qoi_encode P D = qoi_encode_noRGBA P D := by
  refine ⟨toPixels_rgb_alpha P, ?_⟩
  unfold qoi_encode qoi_encode_noRGBA
  rw [hch]
  split
  · rfl
  · split
    · rfl
    · split
      · rfl
      · rw [encodeLoop_noAlpha_eq (toPixels ChanelMode.Rgb P)
          ⟨seedPixel, List.replicate 64 zeroPixel, 0⟩ (toPixels_rgb_alpha P) rfl]

/-- C10 (witness): the red-pixel buffer encodes identically through both
encoders. -/
theorem qoi_encode_rgb_no_rgba_witness :
    (∀ p ∈ toPixels ChanelMode.Rgb [255, 0, 0], p.a = 255) ∧
    qoi_encode [255, 0, 0] ⟨1, 1, ChanelMode.Rgb, Colorspace.Srgb⟩ =
      qoi_encode_noRGBA [255, 0, 0] ⟨1, 1, ChanelMode.Rgb, Colorspace.Srgb⟩ :=
  qoi_encode_rgb_no_rgba [255, 0, 0] ⟨1, 1, ChanelMode.Rgb, Colorspace.Srgb⟩ rfl

/-- `readU8` only fails with the end-of-stream error. -/
theorem readU8_error (l : List Nat) (e : QoiErr) (h : readU8 l = .error e) :
    e = .eof := by
  cases l with
  | nil => injection h with h; exact h.symm
  | cons b t => simp [readU8] at h

/-- A successful `readU8` splits off the head byte. -/
theorem readU8_ok (l : List Nat) (b : Nat) (r : List Nat)
    (h : readU8 l = .ok (b, r)) : l = b :: r := by
  cases l with
  | nil => simp [readU8] at h
  | cons x t =>
    simp [readU8] at h
    rw [h.1, h.2]

/-- `read4` only fails with the end-of-stream error. -/
theorem read4_error (l : List Nat) (e : QoiErr) (h : read4 l = .error e) :
    e = .eof := by
  match l with
  | [] => injection h with h; exact h.symm
  | [_] => injection h with h; exact h.symm
  | [_, _] => injection h with h; exact h.symm
  | [_, _, _] => injection h with h; exact h.symm
  | _ :: _ :: _ :: _ :: _ => simp [read4] at h

/-- A successful `read4` splits off four head bytes. -/
theorem read4_ok (l : List Nat) (b0 b1 b2 b3 : Nat) (r : List Nat)
    (h : read4 l = .ok ((b0, b1, b2, b3), r)) : l = b0 :: b1 :: b2 :: b3 :: r := by
  match l with
  | [] => simp [read4] at h
  | [_] => simp [read4] at h
  | [_, _] => simp [read4] at h
  | [_, _, _] => simp [read4] at h
  | x0 :: x1 :: x2 :: x3 :: t =>
    simp [read4] at h
    obtain ⟨⟨e0, e1, e2, e3⟩, e4⟩ := h
    rw [e0, e1, e2, e3, e4]

/-- `readU32` only fails with the end-of-stream error. -/
theorem readU32_error (l : List Nat) (e : QoiErr) (h : readU32 l = .error e) :
    e = .eof := by
  unfold readU32 at h
  split at h
  · simp at h
  · rename_i e' heq
    injection h with h
    subst h
    exact read4_error l e' heq

/-- A successful `readU32` consumes four head bytes. -/
theorem readU32_ok (l : List Nat) (v : Nat) (r : List Nat)
    (h : readU32 l = .ok (v, r)) :
    ∃ b0 b1 b2 b3, l = b0 :: b1 :: b2 :: b3 :: r ∧ v = from_be32 b0 b1 b2 b3 := by
  unfold readU32 at h
  split at h
  · rename_i b0 b1 b2 b3 rest heq
    simp at h
    exact ⟨b0, b1, b2, b3, by rw [← h.2]; exact read4_ok l b0 b1 b2 b3 rest heq,
           h.1.symm⟩
  · simp at h

/-- `decodeOp` never raises the out-of-bounds error when the op byte is a
byte and the cache has 64 slots; on success the cache is returned untouched
and the remaining stream only holds bytes of the input stream. -/
theorem decodeOp_props (op_byte : Nat) (st : DecState) (data : List Nat)
    (hop : op_byte < 256) (hlen : st.index.length = 64) :
    decodeOp op_byte st data ≠ .error .indexOutOfBounds ∧
    ∀ st' rest, decodeOp op_byte st data = .ok (st', rest) →
      st'.index = st.index ∧ ∀ b ∈ rest, b ∈ data := by
  unfold decodeOp
  by_cases h1 : op_byte = QOI_OP_RGB
  · rw [if_pos h1]
    rcases data with _ | ⟨r, _ | ⟨g, _ | ⟨b, rest⟩⟩⟩
    · exact ⟨by simp, by intro st' rest' h; simp at h⟩
    · exact ⟨by simp, by intro st' rest' h; simp at h⟩
    · exact ⟨by simp, by intro st' rest' h; simp at h⟩
    · refine ⟨by simp, ?_⟩
      intro st' rest' h
      injection h with h
      injection h with ha hb
      subst ha; subst hb
      exact ⟨rfl, fun x hx => by simp [hx]⟩
  rw [if_neg h1]
  by_cases h2 : op_byte = QOI_OP_RGBA
  · rw [if_pos h2]
    rcases data with _ | ⟨r, _ | ⟨g, _ | ⟨b, _ | ⟨a, rest⟩⟩⟩⟩
    · exact ⟨by simp, by intro st' rest' h; simp at h⟩
    · exact ⟨by simp, by intro st' rest' h; simp at h⟩
    · exact ⟨by simp, by intro st' rest' h; simp at h⟩
    · exact ⟨by simp, by intro st' rest' h; simp at h⟩
    · refine ⟨by simp, ?_⟩
      intro st' rest' h
      injection h with h
      injection h with ha hb
      subst ha; subst hb
      exact ⟨rfl, fun x hx => by simp [hx]⟩
  rw [if_neg h2]
  by_cases h3 : op_byte &&& QOI_MASK = QOI_OP_INDEX
  · rw [if_pos h3]
    have hlt : op_byte < 64 := masked_byte_lt_64 op_byte hop h3
    cases hq : st.index.get? op_byte with
    | none =>
      exfalso
      have := List.get?_eq_none.mp hq
      omega
    | some p =>
      refine ⟨by simp, ?_⟩
      intro st' rest' h
      injection h with h
      injection h with ha hb
      subst ha; subst hb
      exact ⟨rfl, fun x hx => hx⟩
  rw [if_neg h3]
  by_cases h4 : op_byte &&& QOI_MASK = QOI_OP_DIFF
  · rw [if_pos h4]
    refine ⟨by simp, ?_⟩
    intro st' rest' h
    injection h with h
    injection h with ha hb
    subst ha; subst hb
    exact ⟨rfl, fun x hx => hx⟩
  rw [if_neg h4]
  by_cases h5 : op_byte &&& QOI_MASK = QOI_OP_LUMA
  · rw [if_pos h5]
    rcases data with _ | ⟨delta, rest⟩
    · exact ⟨by simp, by intro st' rest' h; simp at h⟩
    · refine ⟨by simp, ?_⟩
      intro st' rest' h
      injection h with h
      injection h with ha hb
      subst ha; subst hb
      exact ⟨rfl, fun x hx => by simp [hx]⟩
  rw [if_neg h5]
  by_cases h6 : op_byte &&& QOI_MASK = QOI_OP_RUN
  · rw [if_pos h6]
    refine ⟨by simp, ?_⟩
    intro st' rest' h
    injection h with h
    injection h with ha hb
    subst ha; subst hb
    exact ⟨rfl, fun x hx => hx⟩
  rw [if_neg h6]
  refine ⟨by simp, ?_⟩
  intro st' rest' h
  injection h with h
  injection h with ha hb
  subst ha; subst hb
  exact ⟨rfl, fun x hx => hx⟩

/-- The decoder loop never raises the out-of-bounds error on a byte stream
when the cache has 64 slots. -/
theorem decodeLoop_no_oob (ch : ChanelMode) : ∀ (fuel : Nat) (st : DecState)
    (data : List Nat), st.index.length = 64 → (∀ b ∈ data, b < 256) →
    decodeLoop ch fuel st data ≠ .error .indexOutOfBounds := by
  intro fuel
  induction fuel with
  | zero => intro st data _ _; simp [decodeLoop]
  | succ n ih =>
    intro st data hlen hbytes hcon
    rw [decodeLoop] at hcon
    split at hcon
    · -- pending run: only the recursive call can fail
      split at hcon
      · simp at hcon
      · rename_i e heq
        injection hcon with hcon
        subst hcon
        exact ih ⟨st.index, st.pixel, st.run - 1⟩ data hlen hbytes heq
    · split at hcon
      · -- readU8 failed: the error is eof, not out-of-bounds
        rename_i e heq
        injection hcon with hcon
        subst hcon
        cases readU8_error data _ heq
      · rename_i op data' heq
        have hdata : data = op :: data' := readU8_ok data op data' heq
        have hop : op < 256 := hbytes op (by rw [hdata]; simp)
        have hbytes' : ∀ b ∈ data', b < 256 := fun b hb =>
          hbytes b (by rw [hdata]; simp [hb])
        split at hcon
        · -- decodeOp failed
          rename_i e heq2
          injection hcon with hcon
          subst hcon
          exact (decodeOp_props op st data' hop hlen).1 heq2
        · rename_i st' data'' heq2
          obtain ⟨hidx, hmem⟩ := (decodeOp_props op st data' hop hlen).2 st' data'' heq2
          dsimp only at hcon
          split at hcon
          · simp at hcon
          · rename_i e heq3
            injection hcon with hcon
            subst hcon
            refine ih _ data'' ?_ (fun b hb => hbytes' b (hmem b hb)) heq3
            simp [List.length_set, hidx, hlen]

/-- `readChannels` only fails with end-of-stream or the bad-channel error. -/
theorem readChannels_error (ch : Option ChanelMode) (data : List Nat) (e : QoiErr)
    (h : readChannels ch data = .error e) : e = .eof ∨ e = .badChannels := by
  rcases ch with _ | channel
  · simp only [readChannels] at h
    split at h
    · simp at h
    · simp at h
    · injection h with h; exact Or.inr h.symm
    · rename_i e' heq
      injection h with h
      subst h
      exact Or.inl (readU8_error data _ heq)
  · simp only [readChannels] at h
    split at h
    · simp at h
    · rename_i e' heq
      injection h with h
      subst h
      exact Or.inl (readU8_error data _ heq)

/-- A successful `readChannels` consumes exactly one byte. -/
theorem readChannels_ok (ch : Option ChanelMode) (data : List Nat)
    (c : ChanelMode) (rest : List Nat) (h : readChannels ch data = .ok (c, rest)) :
    ∃ b, data = b :: rest := by
  rcases ch with _ | channel
  · simp only [readChannels] at h
    split at h
    · rename_i d heq
      injection h with h
      injection h with h1 h2
      subst h2
      exact ⟨3, readU8_ok _ _ _ heq⟩
    · rename_i d heq
      injection h with h
      injection h with h1 h2
      subst h2
      exact ⟨4, readU8_ok _ _ _ heq⟩
    · simp at h
    · simp at h
  · simp only [readChannels] at h
    split at h
    · rename_i b d heq
      injection h with h
      injection h with h1 h2
      subst h2
      exact ⟨b, readU8_ok _ _ _ heq⟩
    · simp at h

/-- `readColorspace` only fails with the bad-colorspace error. -/
theorem readColorspace_error (b : Nat) (e : QoiErr)
    (h : readColorspace b = .error e) : e = .badColorspace := by
  unfold readColorspace at h
  split at h
  · simp at h
  · simp at h
  · injection h with h; exact h.symm

/-- `qoi_decodeAux` never raises the out-of-bounds error on a byte stream. -/
theorem qoi_decodeAux_no_oob (data : List Nat) (ch : Option ChanelMode)
    (hbytes : ∀ b ∈ data, b < 256) :
    qoi_decodeAux data ch ≠ .error .indexOutOfBounds := by
  intro hcon
  unfold qoi_decodeAux at hcon
  split at hcon
  · rename_i e heq
    injection hcon with hcon
    subst hcon
    cases read4_error data _ heq
  · rename_i m0 m1 m2 m3 data1 heq
    have hdata1 : ∀ b ∈ data1, b < 256 := fun b hb =>
      hbytes b (by rw [read4_ok data m0 m1 m2 m3 data1 heq]; simp [hb])
    split at hcon
    · simp at hcon
    · split at hcon
      · rename_i e heq2
        injection hcon with hcon
        subst hcon
        cases readU32_error data1 _ heq2
      · rename_i width data2 heq2
        obtain ⟨a0, a1, a2, a3, hd2, _⟩ := readU32_ok data1 width data2 heq2
        have hdata2 : ∀ b ∈ data2, b < 256 := fun b hb =>
          hdata1 b (by rw [hd2]; simp [hb])
        split at hcon
        · rename_i e heq3
          injection hcon with hcon
          subst hcon
          cases readU32_error data2 _ heq3
        · rename_i height data3 heq3
          obtain ⟨c0, c1, c2, c3, hd3, _⟩ := readU32_ok data2 height data3 heq3
          have hdata3 : ∀ b ∈ data3, b < 256 := fun b hb =>
            hdata2 b (by rw [hd3]; simp [hb])
          split at hcon
          · rename_i e heq4
            injection hcon with hcon
            subst hcon
            rcases readChannels_error ch data3 _ heq4 with h | h <;> cases h
          · rename_i channels data4 heq4
            obtain ⟨cb, hd4⟩ := readChannels_ok ch data3 channels data4 heq4
            have hdata4 : ∀ b ∈ data4, b < 256 := fun b hb =>
              hdata3 b (by rw [hd4]; simp [hb])
            split at hcon
            · rename_i e heq5
              injection hcon with hcon
              subst hcon
              cases readU8_error data4 _ heq5
            · rename_i csByte data5 heq5
              have hd5 := readU8_ok data4 _ _ heq5
              have hdata5 : ∀ b ∈ data5, b < 256 := fun b hb =>
                hdata4 b (by rw [hd5]; simp [hb])
              split at hcon
              · rename_i e heq6
                injection hcon with hcon
                subst hcon
                cases readColorspace_error csByte _ heq6
              · split at hcon
                · simp at hcon
                · split at hcon
                  · simp at hcon
                  · dsimp only at hcon
                    split at hcon
                    · rename_i e heq7
                      injection hcon with hcon
                      subst hcon
                      exact decodeLoop_no_oob channels _ _ data5 (by simp) hdata5 heq7
                    · simp at hcon

/-- C9: a byte with clear top two bits is at most 63, and the decoder's
`index[op_byte]` lookup can therefore never go out of bounds: on byte
streams `qoi_decode` never returns the out-of-bounds error, whatever the
bytes are. -/
theorem decode_index_in_bounds :
    (∀ b : Nat, b < 256 → (b &&& QOI_MASK) = QOI_OP_INDEX → b ≤ 63) ∧
    (∀ (data : List Nat) (ch : Option ChanelMode), (∀ x ∈ data, x < 256) →
      qoi_decode data ch ≠ .error .indexOutOfBounds) := by
  constructor
  · intro b hb hm
    have := masked_byte_lt_64 b hb hm
    omega
  · intro data ch hx hcon
    unfold qoi_decode at hcon
    split at hcon
    · simp at hcon
    · rename_i e heq
      injection hcon with hcon
      subst hcon
      exact qoi_decodeAux_no_oob data ch hx heq

/-- C9 (witness): applied to the op byte 63 and to a short concrete stream. -/
theorem decode_index_in_bounds_witness :
    (63 < 256 → ((63 &&& QOI_MASK) = QOI_OP_INDEX → (63 : Nat) ≤ 63)) ∧
    qoi_decode [113, 111, 105, 102, 0] none ≠ .error .indexOutOfBounds :=
  ⟨fun h => decode_index_in_bounds.1 63 h,
   decode_index_in_bounds.2 [113, 111, 105, 102, 0] none (by decide)⟩

/-- Each decoded pixel contributes `channels` bytes to the output. -/
theorem pushPixel_length (ch : ChanelMode) (p : QoiRGBA) :
    (pushPixel ch p).length = ch.toNat := by
  cases ch <;> simp [pushPixel, ChanelMode.toNat]

/-- The decoder loop pushes exactly `fuel` pixels. -/
theorem decodeLoop_length (ch : ChanelMode) : ∀ (fuel : Nat) (st : DecState)
    (data out rest : List Nat), decodeLoop ch fuel st data = .ok (out, rest) →
    out.length = fuel * ch.toNat := by
  intro fuel
  induction fuel with
  | zero =>
    intro st data out rest h
    simp [decodeLoop] at h
    simp [← h.1]
  | succ n ih =>
    intro st data out rest h
    rw [decodeLoop] at h
    split at h
    · split at h
      · rename_i o r heq
        injection h with h
        injection h with h1 h2
        rw [← h1]
        simp [pushPixel_length, ih _ _ _ _ heq, Nat.succ_mul]
        omega
      · simp at h
    · split at h
      · simp at h
      · rename_i op data' heq
        split at h
        · simp at h
        · rename_i st' data'' heq2
          dsimp only at h
          split at h
          · rename_i o r heq3
            injection h with h
            injection h with h1 h2
            rw [← h1]
            simp [pushPixel_length, ih _ _ _ _ heq3, Nat.succ_mul]
            omega
          · simp at h

/-- The decoder's loop count for an exact pixel buffer. -/
theorem stepCount_mul (n : Nat) (ch : ChanelMode) :
    stepCount (n * ch.toNat) ch.toNat = n := by
  cases ch <;> simp [stepCount, ChanelMode.toNat] <;> omega

/-- With a forced mode, `readChannels` succeeds with exactly that mode. -/
theorem readChannels_some_ok (m : ChanelMode) (data : List Nat)
    (c : ChanelMode) (rest : List Nat)
    (h : readChannels (some m) data = .ok (c, rest)) : c = m := by
  simp only [readChannels] at h
  split at h
  · rename_i b d heq
    injection h with h
    injection h with h1 h2
    exact h1.symm
  · simp at h

/-- With a forced mode, `readChannels` only fails with end-of-stream. -/
theorem readChannels_some_error (m : ChanelMode) (data : List Nat) (e : QoiErr)
    (h : readChannels (some m) data = .error e) : e = .eof := by
  simp only [readChannels] at h
  split at h
  · simp at h
  · rename_i e' heq
    injection h with h
    subst h
    exact readU8_error data _ heq

/-- `decodeOp` only fails with end-of-stream or the out-of-bounds error. -/
theorem decodeOp_error (op_byte : Nat) (st : DecState) (data : List Nat)
    (e : QoiErr) (h : decodeOp op_byte st data = .error e) :
    e = .eof ∨ e = .indexOutOfBounds := by
  unfold decodeOp at h
  repeat' split at h
  all_goals first
    | (injection h with h; exact Or.inl h.symm)
    | (injection h with h; exact Or.inr h.symm)
    | (simp at h)

/-- The decoder loop only fails with end-of-stream or the out-of-bounds
error. -/
theorem decodeLoop_error (ch : ChanelMode) : ∀ (fuel : Nat) (st : DecState)
    (data : List Nat) (e : QoiErr), decodeLoop ch fuel st data = .error e →
    e = .eof ∨ e = .indexOutOfBounds := by
  intro fuel
  induction fuel with
  | zero => intro st data e h; simp [decodeLoop] at h
  | succ n ih =>
    intro st data e h
    rw [decodeLoop] at h
    split at h
    · split at h
      · simp at h
      · rename_i e' heq
        injection h with h
        subst h
        exact ih _ _ _ heq
    · split at h
      · rename_i e' heq
        injection h with h
        subst h
        exact Or.inl (readU8_error data _ heq)
      · rename_i op data' heq
        split at h
        · rename_i e' heq2
          injection h with h
          subst h
          exact decodeOp_error op st data' _ heq2
        · rename_i st' data'' heq2
          dsimp only at h
          split at h
          · simp at h
          · rename_i e' heq3
            injection h with h
            subst h
            exact ih _ _ _ heq3

/-- Inversion of a successful decode: the descriptor's channel mode comes
from `readChannels` (the forced mode when given), and the output buffer has
exactly `width * height * channels` bytes. -/
theorem qoi_decodeAux_ok_inv (data : List Nat) (ch : Option ChanelMode)
    (out : List Nat) (desc : QoiDescriptor) (rest : List Nat)
    (h : qoi_decodeAux data ch = .ok ((out, desc), rest)) :
    (∀ cm, ch = some cm → desc.channels = cm) ∧
    out.length = desc.width * desc.height * desc.channels.toNat := by
  unfold qoi_decodeAux at h
  split at h
  · simp at h
  · rename_i m0 m1 m2 m3 data1 heq
    split at h
    · simp at h
    · split at h
      · simp at h
      · rename_i width data2 heq2
        split at h
        · simp at h
        · rename_i height data3 heq3
          split at h
          · simp at h
          · rename_i channels data4 heq4
            split at h
            · simp at h
            · rename_i csByte data5 heq5
              split at h
              · simp at h
              · rename_i colorspace heq6
                split at h
                · simp at h
                · split at h
                  · simp at h
                  · dsimp only at h
                    split at h
                    · simp at h
                    · rename_i pixels rest' heq7
                      injection h with h
                      injection h with h1 h2
                      injection h1 with h3 h4
                      subst h3
                      subst h4
                      constructor
                      · intro cm hcm
                        subst hcm
                        exact readChannels_some_ok cm data3 channels data4 heq4
                      · have hlen := decodeLoop_length channels _ _ _ _ _ heq7
                        rw [hlen]
                        exact congrArg (· * channels.toNat) (stepCount_mul _ _) |>.trans rfl

/-- With a forced channel mode, `qoi_decodeAux` can never fail with the
bad-channel-count error. -/
theorem qoi_decodeAux_some_no_badChannels (data : List Nat) (m : ChanelMode) :
    qoi_decodeAux data (some m) ≠ .error .badChannels := by
  intro hcon
  unfold qoi_decodeAux at hcon
  split at hcon
  · rename_i e heq
    injection hcon with hcon
    subst hcon
    cases read4_error data _ heq
  · rename_i m0 m1 m2 m3 data1 heq
    split at hcon
    · simp at hcon
    · split at hcon
      · rename_i e heq2
        injection hcon with hcon
        subst hcon
        cases readU32_error data1 _ heq2
      · rename_i width data2 heq2
        split at hcon
        · rename_i e heq3
          injection hcon with hcon
          subst hcon
          cases readU32_error data2 _ heq3
        · rename_i height data3 heq3
          split at hcon
          · rename_i e heq4
            injection hcon with hcon
            subst hcon
            cases readChannels_some_error m data3 _ heq4
          · rename_i channels data4 heq4
            split at hcon
            · rename_i e heq5
              injection hcon with hcon
              subst hcon
              cases readU8_error data4 _ heq5
            · rename_i csByte data5 heq5
              split at hcon
              · rename_i e heq6
                injection hcon with hcon
                subst hcon
                cases readColorspace_error csByte _ heq6
              · split at hcon
                · simp at hcon
                · split at hcon
                  · simp at hcon
                  · dsimp only at hcon
                    split at hcon
                    · rename_i e heq7
                      injection hcon with hcon
                      subst hcon
                      rcases decodeLoop_error channels _ _ _ _ heq7 with h | h <;> cases h
                    · simp at hcon

/-- C6: with a forced channel mode, the channel byte at offset 12 is consumed
but its value is irrelevant to the entire result; on success the descriptor's
channel mode and the output length `width*height*channels` come from the
forced mode; and the bad-channel-count error can never arise. -/
theorem decode_forced_mode :
    (∀ (m0 m1 m2 m3 w0 w1 w2 w3 h0 h1 h2 h3 c c' : Nat) (post : List Nat)
       (m : ChanelMode),
       qoi_decode ([m0, m1, m2, m3, w0, w1, w2, w3, h0, h1, h2, h3] ++ c :: post)
           (some m) =
         qoi_decode ([m0, m1, m2, m3, w0, w1, w2, w3, h0, h1, h2, h3] ++ c' :: post)
           (some m)) ∧
    (∀ (data out : List Nat) (desc : QoiDescriptor) (m : ChanelMode),
       qoi_decode data (some m) = .ok (out, desc) →
       desc.channels = m ∧ out.length = desc.width * desc.height * m.toNat) ∧
    (∀ (data : List Nat) (m : ChanelMode),
       qoi_decode data (some m) ≠ .error .badChannels) := by
  refine ⟨?_, ?_, ?_⟩
  · intro m0 m1 m2 m3 w0 w1 w2 w3 h0 h1 h2 h3 c c' post m
    simp only [qoi_decode, qoi_decodeAux, read4, readU32, readChannels, readU8,
      List.cons_append, List.nil_append]
  · intro data out desc m h
    unfold qoi_decode at h
    split at h
    · rename_i res rest heq
      injection h with h
      subst h
      obtain ⟨hch, hlen⟩ := qoi_decodeAux_ok_inv data (some m) out desc rest heq
      have hm := hch m rfl
      exact ⟨hm, by rw [hlen, hm]⟩
    · simp at h
  · intro data m hcon
    unfold qoi_decode at hcon
    split at hcon
    · simp at hcon
    · rename_i e heq
      injection hcon with hcon
      subst hcon
      exact qoi_decodeAux_some_no_badChannels data m heq

/-- C6 (witness): a forced-RGBA decode of a 1x1 RGB-tagged image with a
garbage channel byte 9 equals the same decode with channel byte 3, succeeds,
and returns 4 output bytes. -/
theorem decode_forced_mode_witness :
    qoi_decode ([113, 111, 105, 102, 0, 0, 0, 1, 0, 0, 0, 1] ++ 9 :: [0, 254, 1, 2, 3])
        (some ChanelMode.Rgba) =
      qoi_decode ([113, 111, 105, 102, 0, 0, 0, 1, 0, 0, 0, 1] ++ 3 :: [0, 254, 1, 2, 3])
        (some ChanelMode.Rgba) ∧
    ((QoiDescriptor.mk 1 1 ChanelMode.Rgba Colorspace.Srgb).channels = ChanelMode.Rgba ∧
      ([1, 2, 3, 255] : List Nat).length = 1 * 1 * ChanelMode.Rgba.toNat) ∧
    qoi_decode [] (some ChanelMode.Rgb) ≠ .error .badChannels :=
  ⟨decode_forced_mode.1 113 111 105 102 0 0 0 1 0 0 0 1 9 3 [0, 254, 1, 2, 3]
      ChanelMode.Rgba,
   decode_forced_mode.2.1
     ([113, 111, 105, 102, 0, 0, 0, 1, 0, 0, 0, 1] ++ 9 :: [0, 254, 1, 2, 3])
     [1, 2, 3, 255] (QoiDescriptor.mk 1 1 ChanelMode.Rgba Colorspace.Srgb)
     ChanelMode.Rgba (by rfl),
   decode_forced_mode.2.2 [] ChanelMode.Rgb⟩

/-- Truncating the stream below what `decodeOp` consumed yields the
end-of-stream error; truncating at or beyond it yields the same result with
the leftover truncated accordingly. -/
theorem decodeOp_trunc (op_byte : Nat) (st : DecState) (data : List Nat)
    (st' : DecState) (rest : List Nat)
    (h : decodeOp op_byte st data = .ok (st', rest)) :
    rest.length ≤ data.length ∧
    ∀ k, decodeOp op_byte st (data.take k) =
      if k < data.length - rest.length then .error .eof
      else .ok (st', rest.take (k - (data.length - rest.length))) := by
  unfold decodeOp at h ⊢
  by_cases h1 : op_byte = QOI_OP_RGB
  · simp only [h1, if_true, eq_self_iff_true] at h ⊢
    rcases data with _ | ⟨r, _ | ⟨g, _ | ⟨b, t⟩⟩⟩
    · simp at h
    · simp at h
    · simp at h
    · injection h with h
      injection h with ha hb
      subst ha; subst hb
      refine ⟨by simp only [List.length_cons]; omega, ?_⟩
      intro k
      rcases k with _ | _ | _ | k
      · rw [if_pos (by simp only [List.length_cons]; omega)]; rfl
      · rw [if_pos (by simp only [List.length_cons]; omega)]; rfl
      · rw [if_pos (by simp only [List.length_cons]; omega)]; rfl
      · have hc : ¬(k + 3 < (r :: g :: b :: t).length - t.length) := by
          simp only [List.length_cons]; omega
        rw [if_neg hc]
        show Except.ok _ = _
        have : k + 3 - ((r :: g :: b :: t).length - t.length) = k := by
          simp only [List.length_cons]; omega
        rw [this]
  · simp only [h1, if_false] at h ⊢
    by_cases h2 : op_byte = QOI_OP_RGBA
    · simp only [h2, if_true, eq_self_iff_true] at h ⊢
      rcases data with _ | ⟨r, _ | ⟨g, _ | ⟨b, _ | ⟨a, t⟩⟩⟩⟩
      · simp at h
      · simp at h
      · simp at h
      · simp at h
      · injection h with h
        injection h with ha hb
        subst ha; subst hb
        refine ⟨by simp only [List.length_cons]; omega, ?_⟩
        intro k
        rcases k with _ | _ | _ | _ | k
        · rw [if_pos (by simp only [List.length_cons]; omega)]; rfl
        · rw [if_pos (by simp only [List.length_cons]; omega)]; rfl
        · rw [if_pos (by simp only [List.length_cons]; omega)]; rfl
        · rw [if_pos (by simp only [List.length_cons]; omega)]; rfl
        · have hc : ¬(k + 4 < (r :: g :: b :: a :: t).length - t.length) := by
            simp only [List.length_cons]; omega
          rw [if_neg hc]
          show Except.ok _ = _
          have : k + 4 - ((r :: g :: b :: a :: t).length - t.length) = k := by
            simp only [List.length_cons]; omega
          rw [this]
    · simp only [h2, if_false] at h ⊢
      by_cases h3 : op_byte &&& QOI_MASK = QOI_OP_INDEX
      · simp only [h3, if_true, eq_self_iff_true] at h ⊢
        cases hq : st.index.get? op_byte with
        | none => rw [hq] at h; simp at h
        | some p =>
          rw [hq] at h
          injection h with h
          injection h with ha hb
          subst ha; subst hb
          refine ⟨le_refl _, ?_⟩
          intro k
          simp
      · simp only [h3, if_false] at h ⊢
        by_cases h4 : op_byte &&& QOI_MASK = QOI_OP_DIFF
        · simp only [h4, if_true, eq_self_iff_true] at h ⊢
          injection h with h
          injection h with ha hb
          subst ha; subst hb
          refine ⟨le_refl _, ?_⟩
          intro k
          simp
        · simp only [h4, if_false] at h ⊢
          by_cases h5 : op_byte &&& QOI_MASK = QOI_OP_LUMA
          · simp only [h5, if_true, eq_self_iff_true] at h ⊢
            rcases data with _ | ⟨delta, t⟩
            · simp at h
            · injection h with h
              injection h with ha hb
              subst ha; subst hb
              refine ⟨by simp only [List.length_cons]; omega, ?_⟩
              intro k
              rcases k with _ | k
              · rw [if_pos (by simp only [List.length_cons]; omega)]; rfl
              · have hc : ¬(k + 1 < (delta :: t).length - t.length) := by
                  simp only [List.length_cons]; omega
                rw [if_neg hc]
                show Except.ok _ = _
                have : k + 1 - ((delta :: t).length - t.length) = k := by
                  simp only [List.length_cons]; omega
                rw [this]
          · simp only [h5, if_false] at h ⊢
            by_cases h6 : op_byte &&& QOI_MASK = QOI_OP_RUN
            · simp only [h6, if_true, eq_self_iff_true] at h ⊢
              injection h with h
              injection h with ha hb
              subst ha; subst hb
              refine ⟨le_refl _, ?_⟩
              intro k
              simp
            · simp only [h6, if_false] at h ⊢
              injection h with h
              injection h with ha hb
              subst ha; subst hb
              refine ⟨le_refl _, ?_⟩
              intro k
              simp

/-- Truncating the stream below what the decoder loop consumed yields the
end-of-stream error; truncating at or beyond it yields the same output with
the leftover truncated accordingly. -/
theorem decodeLoop_trunc (ch : ChanelMode) : ∀ (fuel : Nat) (st : DecState)
    (data out rest : List Nat), decodeLoop ch fuel st data = .ok (out, rest) →
    rest.length ≤ data.length ∧
    ∀ k, decodeLoop ch fuel st (data.take k) =
      if k < data.length - rest.length then .error .eof
      else .ok (out, rest.take (k - (data.length - rest.length))) := by
  intro fuel
  induction fuel with
  | zero =>
    intro st data out rest h
    simp only [decodeLoop] at h
    injection h with h
    injection h with h1 h2
    subst h1; subst h2
    refine ⟨le_refl _, ?_⟩
    intro k
    simp [decodeLoop]
  | succ n ih =>
    intro st data out rest h
    rw [decodeLoop] at h
    by_cases hrun : st.run > 0
    · rw [if_pos hrun] at h
      cases hrec : decodeLoop ch n ⟨st.index, st.pixel, st.run - 1⟩ data with
      | error e => rw [hrec] at h; simp at h
      | ok pr =>
        obtain ⟨o, r⟩ := pr
        rw [hrec] at h
        injection h with h
        injection h with h1 h2
        subst h1; subst h2
        obtain ⟨hle, htr⟩ := ih _ _ _ _ hrec
        refine ⟨hle, ?_⟩
        intro k
        rw [decodeLoop, if_pos hrun, htr k]
        by_cases hk : k < data.length - r.length
        · rw [if_pos hk, if_pos hk]
        · rw [if_neg hk, if_neg hk]
    · rw [if_neg hrun] at h
      cases hr8 : readU8 data with
      | error e => rw [hr8] at h; simp at h
      | ok pr =>
        obtain ⟨op, data1⟩ := pr
        rw [hr8] at h
        dsimp only at h
        have hd1 : data = op :: data1 := readU8_ok _ _ _ hr8
        cases hop : decodeOp op st data1 with
        | error e => rw [hop] at h; simp at h
        | ok pr2 =>
          obtain ⟨st1, data2⟩ := pr2
          rw [hop] at h
          dsimp only at h
          cases hrec : decodeLoop ch n
              ⟨st1.index.set (color_hash st1.pixel % 64) st1.pixel, st1.pixel,
               st1.run⟩ data2 with
          | error e => rw [hrec] at h; simp at h
          | ok pr3 =>
            obtain ⟨o, r⟩ := pr3
            rw [hrec] at h
            injection h with h
            injection h with h1 h2
            subst h1; subst h2
            obtain ⟨hle2, htr2⟩ := decodeOp_trunc op st data1 st1 data2 hop
            obtain ⟨hle3, htr3⟩ := ih _ _ _ _ hrec
            subst hd1
            refine ⟨by simp only [List.length_cons]; omega, ?_⟩
            intro k
            rcases k with _ | j
            · rw [decodeLoop, if_neg hrun]
              rw [if_pos (by simp only [List.length_cons]; omega)]
              rfl
            · rw [decodeLoop, if_neg hrun]
              simp only [List.take_succ_cons, readU8]
              rw [htr2 j]
              by_cases hj : j < data1.length - data2.length
              · rw [if_pos hj]
                rw [if_pos (by simp only [List.length_cons]; omega)]
              · rw [if_neg hj]
                dsimp only
                rw [htr3 (j - (data1.length - data2.length))]
                by_cases hj2 : j - (data1.length - data2.length) <
                    data2.length - r.length
                · rw [if_pos hj2]
                  rw [if_pos (by simp only [List.length_cons]; omega)]
                · rw [if_neg hj2]
                  rw [if_neg (by simp only [List.length_cons]; omega)]
                  have harg : j - (data1.length - data2.length) -
                      (data2.length - r.length) =
                      j + 1 - ((op :: data1).length - r.length) := by
                    simp only [List.length_cons]; omega
                  rw [harg]

/-- Truncation behaviour of `readU8`. -/
theorem readU8_trunc (l : List Nat) (b : Nat) (r : List Nat)
    (h : readU8 l = .ok (b, r)) :
    ∀ k, readU8 (l.take k) = if k < 1 then .error .eof
      else .ok (b, r.take (k - 1)) := by
  intro k
  rw [readU8_ok l b r h]
  rcases k with _ | k
  · rfl
  · rw [if_neg (by omega)]
    rfl

/-- Truncation behaviour of `read4`. -/
theorem read4_trunc (l : List Nat) (b0 b1 b2 b3 : Nat) (r : List Nat)
    (h : read4 l = .ok ((b0, b1, b2, b3), r)) :
    ∀ k, read4 (l.take k) = if k < 4 then .error .eof
      else .ok ((b0, b1, b2, b3), r.take (k - 4)) := by
  intro k
  rw [read4_ok l b0 b1 b2 b3 r h]
  rcases k with _ | _ | _ | _ | k
  · rfl
  · rfl
  · rfl
  · rfl
  · rw [if_neg (by omega)]
    rfl

/-- Truncation behaviour of `readU32`. -/
theorem readU32_trunc (l : List Nat) (v : Nat) (r : List Nat)
    (h : readU32 l = .ok (v, r)) :
    ∀ k, readU32 (l.take k) = if k < 4 then .error .eof
      else .ok (v, r.take (k - 4)) := by
  obtain ⟨b0, b1, b2, b3, hl, hv⟩ := readU32_ok l v r h
  intro k
  have h4 : read4 l = .ok ((b0, b1, b2, b3), r) := by rw [hl]; rfl
  unfold readU32
  rw [read4_trunc l b0 b1 b2 b3 r h4 k]
  by_cases hk : k < 4
  · rw [if_pos hk, if_pos hk]
  · rw [if_neg hk, if_neg hk, hv]

/-- A successful `readChannels` with no forced mode pins the channel byte. -/
theorem readChannels_none_ok (data : List Nat) (c : ChanelMode) (rest : List Nat)
    (h : readChannels none data = .ok (c, rest)) :
    (data = 3 :: rest ∧ c = ChanelMode.Rgb) ∨
    (data = 4 :: rest ∧ c = ChanelMode.Rgba) := by
  simp only [readChannels] at h
  split at h
  · rename_i d heq
    injection h with h
    injection h with h1 h2
    subst h2
    exact Or.inl ⟨readU8_ok _ _ _ heq, h1.symm⟩
  · rename_i d heq
    injection h with h
    injection h with h1 h2
    subst h2
    exact Or.inr ⟨readU8_ok _ _ _ heq, h1.symm⟩
  · simp at h
  · simp at h

/-- Truncation behaviour of `readChannels`. -/
theorem readChannels_trunc (ch : Option ChanelMode) (l : List Nat)
    (c : ChanelMode) (r : List Nat) (h : readChannels ch l = .ok (c, r)) :
    ∀ k, readChannels ch (l.take k) = if k < 1 then .error .eof
      else .ok (c, r.take (k - 1)) := by
  intro k
  rcases ch with _ | m
  · rcases readChannels_none_ok l c r h with ⟨hl, hc⟩ | ⟨hl, hc⟩
    · subst hc
      rw [hl]
      rcases k with _ | k
      · rfl
      · rw [if_neg (by omega)]
        rfl
    · subst hc
      rw [hl]
      rcases k with _ | k
      · rfl
      · rw [if_neg (by omega)]
        rfl
  · have hc := readChannels_some_ok m l c r h
    subst hc
    obtain ⟨b, hl⟩ : ∃ b, l = b :: r := readChannels_ok (some c) l c r h
    rw [hl]
    rcases k with _ | k
    · rfl
    · rw [if_neg (by omega)]
      rfl

/-- C7: when a decode succeeds there is a definite number `n` of required
bytes: truncating the stream below `n` makes `qoi_decode` fail with the
propagated read-exact end-of-stream error (no pixel buffer is produced),
while truncating at or beyond `n` still yields the full result. -/
theorem decode_truncation (data : List Nat) (ch : Option ChanelMode)
    (out : List Nat) (desc : QoiDescriptor)
    (h : qoi_decode data ch = .ok (out, desc)) :
    ∃ n, n ≤ data.length ∧
      (∀ k, k < n → qoi_decode (data.take k) ch = .error .eof) ∧
      (∀ k, n ≤ k → qoi_decode (data.take k) ch = .ok (out, desc)) := by
  unfold qoi_decode at h
  split at h
  case h_2 => simp at h
  case h_1 res rest heqAux =>
  injection h with h
  subst h
  unfold qoi_decodeAux at heqAux
  split at heqAux
  · simp at heqAux
  rename_i m0 m1 m2 m3 data1 heq1
  split at heqAux
  · simp at heqAux
  rename_i hmagic
  split at heqAux
  · simp at heqAux
  rename_i width data2 heq2
  split at heqAux
  · simp at heqAux
  rename_i height data3 heq3
  split at heqAux
  · simp at heqAux
  rename_i channels data4 heq4
  split at heqAux
  · simp at heqAux
  rename_i csByte data5 heq5
  split at heqAux
  · simp at heqAux
  rename_i colorspace heq6
  split at heqAux
  · simp at heqAux
  rename_i hW
  split at heqAux
  · simp at heqAux
  rename_i hP
  dsimp only at heqAux
  split at heqAux
  · simp at heqAux
  rename_i pixels rest' heq7
  injection heqAux with hA
  injection hA with hA1 hB
  injection hA1 with hA3 hA4
  subst hA3
  subst hA4
  subst hB
  -- decompositions and length bookkeeping
  have hd0 : data = m0 :: m1 :: m2 :: m3 :: data1 := read4_ok _ _ _ _ _ _ heq1
  obtain ⟨a0, a1, a2, a3, hd1, _⟩ := readU32_ok data1 width data2 heq2
  obtain ⟨c0, c1, c2, c3, hd2, _⟩ := readU32_ok data2 height data3 heq3
  obtain ⟨cb, hd3⟩ := readChannels_ok ch data3 channels data4 heq4
  have hd4 : data4 = csByte :: data5 := readU8_ok _ _ _ heq5
  have hL0 : data.length = data1.length + 4 := by rw [hd0]; simp
  have hL1 : data1.length = data2.length + 4 := by rw [hd1]; simp
  have hL2 : data2.length = data3.length + 4 := by rw [hd2]; simp
  have hL3 : data3.length = data4.length + 1 := by rw [hd3]; simp
  have hL4 : data4.length = data5.length + 1 := by rw [hd4]; simp
  obtain ⟨hL5, htrL⟩ := decodeLoop_trunc channels _ _ _ _ _ heq7
  have t0 := read4_trunc data m0 m1 m2 m3 data1 heq1
  have t1 := readU32_trunc data1 width data2 heq2
  have t2 := readU32_trunc data2 height data3 heq3
  have t3 := readChannels_trunc ch data3 channels data4 heq4
  have t4 := readU8_trunc data4 csByte data5 heq5
  have main : ∀ k, qoi_decodeAux (data.take k) ch =
      if k < data.length - rest'.length then .error .eof
      else .ok ((pixels, ⟨width, height, channels, colorspace⟩),
                rest'.take (k - (data.length - rest'.length))) := by
    intro k
    unfold qoi_decodeAux
    rw [t0 k]
    by_cases hk0 : k < 4
    · rw [if_pos hk0, if_pos (by omega)]
    rw [if_neg hk0]
    try dsimp only
    rw [if_neg hmagic]
    rw [t1 (k - 4)]
    by_cases hk1 : k - 4 < 4
    · rw [if_pos hk1, if_pos (by omega)]
    rw [if_neg hk1]
    try dsimp only
    rw [t2 (k - 4 - 4)]
    by_cases hk2 : k - 4 - 4 < 4
    · rw [if_pos hk2, if_pos (by omega)]
    rw [if_neg hk2]
    try dsimp only
    rw [t3 (k - 4 - 4 - 4)]
    by_cases hk3 : k - 4 - 4 - 4 < 1
    · rw [if_pos hk3, if_pos (by omega)]
    rw [if_neg hk3]
    try dsimp only
    rw [t4 (k - 4 - 4 - 4 - 1)]
    by_cases hk4 : k - 4 - 4 - 4 - 1 < 1
    · rw [if_pos hk4, if_pos (by omega)]
    rw [if_neg hk4]
    try dsimp only
    rw [heq6]
    try dsimp only
    rw [if_neg hW, if_neg hP]
    try dsimp only
    rw [htrL (k - 4 - 4 - 4 - 1 - 1)]
    by_cases hk5 : k - 4 - 4 - 4 - 1 - 1 < data5.length - rest'.length
    · rw [if_pos hk5, if_pos (by omega)]
    rw [if_neg hk5, if_neg (by omega)]
    have harg : k - 4 - 4 - 4 - 1 - 1 - (data5.length - rest'.length) =
        k - (data.length - rest'.length) := by omega
    rw [harg]
  refine ⟨data.length - rest'.length, by omega, ?_, ?_⟩
  · intro k hk
    unfold qoi_decode
    rw [main k, if_pos hk]
  · intro k hk
    unfold qoi_decode
    rw [main k, if_neg (by omega)]

/-- C7 (witness): applied to the concrete 5-pixel stream of the test suite;
its decode succeeds, so some byte count `n` separates the failing
truncations from the succeeding ones. -/
theorem decode_truncation_witness :
    ∃ n, n ≤ ([113, 111, 105, 102, 0, 0, 0, 5, 0, 0, 0, 1, 3, 1, 90, 254, 15, 1,
        255, 254, 255, 255, 191, 50, 254, 15, 1, 74, 0, 0, 0, 0, 0, 0, 0, 1] :
        List Nat).length ∧
      (∀ k, k < n →
        qoi_decode (([113, 111, 105, 102, 0, 0, 0, 5, 0, 0, 0, 1, 3, 1, 90, 254,
          15, 1, 255, 254, 255, 255, 191, 50, 254, 15, 1, 74, 0, 0, 0, 0, 0, 0,
          0, 1] : List Nat).take k) none = .error .eof) ∧
      (∀ k, n ≤ k →
        qoi_decode (([113, 111, 105, 102, 0, 0, 0, 5, 0, 0, 0, 1, 3, 1, 90, 254,
          15, 1, 255, 254, 255, 255, 191, 50, 254, 15, 1, 74, 0, 0, 0, 0, 0, 0,
          0, 1] : List Nat).take k) none =
          .ok ([255, 0, 0, 15, 1, 255, 255, 255, 191, 255, 0, 0, 15, 1, 74],
               ⟨5, 1, ChanelMode.Rgb, Colorspace.Linear⟩)) :=
  decode_truncation _ none _ _ rfl

/-- `flattenPixels` is an append homomorphism. -/
theorem flattenPixels_append (ch : ChanelMode) : ∀ (l1 l2 : List QoiRGBA),
    flattenPixels ch (l1 ++ l2) = flattenPixels ch l1 ++ flattenPixels ch l2
  | [], l2 => rfl
  | p :: t, l2 => by
    show pushPixel ch p ++ flattenPixels ch (t ++ l2) =
      pushPixel ch p ++ flattenPixels ch t ++ flattenPixels ch l2
    rw [flattenPixels_append ch t l2, List.append_assoc]

/-- `toPixels` of an exact buffer has one pixel per chunk. -/
theorem toPixels_length (ch : ChanelMode) : ∀ (n : Nat) (P : List Nat),
    P.length = n * ch.toNat → (toPixels ch P).length = n := by
  intro n
  induction n with
  | zero =>
    intro P hP
    simp only [Nat.zero_mul, List.length_eq_zero] at hP
    subst hP
    cases ch <;> rfl
  | succ m ih =>
    intro P hP
    cases ch with
    | Rgb =>
      rcases P with _ | ⟨r, _ | ⟨g, _ | ⟨b, rest⟩⟩⟩ <;>
        simp only [ChanelMode.toNat, List.length_cons, List.length_nil] at hP ⊢ <;>
        try omega
      rw [show toPixels ChanelMode.Rgb (r :: g :: b :: rest) =
        QoiRGBA.new r g b 255 :: toPixels ChanelMode.Rgb rest from rfl]
      simp only [List.length_cons]
      rw [ih rest (by simp only [ChanelMode.toNat] at hP ⊢; omega)]
    | Rgba =>
      rcases P with _ | ⟨r, _ | ⟨g, _ | ⟨b, _ | ⟨a, rest⟩⟩⟩⟩ <;>
        simp only [ChanelMode.toNat, List.length_cons, List.length_nil] at hP ⊢ <;>
        try omega
      rw [show toPixels ChanelMode.Rgba (r :: g :: b :: a :: rest) =
        QoiRGBA.new r g b a :: toPixels ChanelMode.Rgba rest from rfl]
      simp only [List.length_cons]
      rw [ih rest (by simp only [ChanelMode.toNat] at hP ⊢; omega)]

/-- Flattening the chunked pixels recovers the original buffer. -/
theorem flattenPixels_toPixels (ch : ChanelMode) : ∀ (n : Nat) (P : List Nat),
    P.length = n * ch.toNat → flattenPixels ch (toPixels ch P) = P := by
  intro n
  induction n with
  | zero =>
    intro P hP
    simp only [Nat.zero_mul, List.length_eq_zero] at hP
    subst hP
    cases ch <;> rfl
  | succ m ih =>
    intro P hP
    cases ch with
    | Rgb =>
      rcases P with _ | ⟨r, _ | ⟨g, _ | ⟨b, rest⟩⟩⟩ <;>
        simp only [ChanelMode.toNat, List.length_cons, List.length_nil] at hP <;>
        try omega
      rw [show toPixels ChanelMode.Rgb (r :: g :: b :: rest) =
        QoiRGBA.new r g b 255 :: toPixels ChanelMode.Rgb rest from rfl]
      rw [show flattenPixels ChanelMode.Rgb (QoiRGBA.new r g b 255 ::
          toPixels ChanelMode.Rgb rest) =
        pushPixel ChanelMode.Rgb (QoiRGBA.new r g b 255) ++
          flattenPixels ChanelMode.Rgb (toPixels ChanelMode.Rgb rest) from rfl]
      rw [ih rest (by simp only [ChanelMode.toNat] at hP ⊢; omega)]
      rfl
    | Rgba =>
      rcases P with _ | ⟨r, _ | ⟨g, _ | ⟨b, _ | ⟨a, rest⟩⟩⟩⟩ <;>
        simp only [ChanelMode.toNat, List.length_cons, List.length_nil] at hP <;>
        try omega
      rw [show toPixels ChanelMode.Rgba (r :: g :: b :: a :: rest) =
        QoiRGBA.new r g b a :: toPixels ChanelMode.Rgba rest from rfl]
      rw [show flattenPixels ChanelMode.Rgba (QoiRGBA.new r g b a ::
          toPixels ChanelMode.Rgba rest) =
        pushPixel ChanelMode.Rgba (QoiRGBA.new r g b a) ++
          flattenPixels ChanelMode.Rgba (toPixels ChanelMode.Rgba rest) from rfl]
      rw [ih rest (by simp only [ChanelMode.toNat] at hP ⊢; omega)]
      rfl

/-- Every chunked pixel is made of bytes of the buffer (or 255). -/
theorem toPixels_bound (ch : ChanelMode) : ∀ (P : List Nat),
    (∀ b ∈ P, b < 256) → ∀ p ∈ toPixels ch P, PixBound p
  | r :: g :: b :: rest => by
    intro hB p hp
    cases ch with
    | Rgb =>
      rw [show toPixels ChanelMode.Rgb (r :: g :: b :: rest) =
        QoiRGBA.new r g b 255 :: toPixels ChanelMode.Rgb rest from rfl] at hp
      rcases List.mem_cons.mp hp with h | h
      · subst h
        exact ⟨hB r (by simp), hB g (by simp), hB b (by simp), by show (255:Nat) < 256; norm_num⟩
      · exact toPixels_bound ChanelMode.Rgb rest
          (fun x hx => hB x (by simp [hx])) p h
    | Rgba =>
      rcases rest with _ | ⟨a, rest'⟩
      · rw [show toPixels ChanelMode.Rgba [r, g, b] = [] from rfl] at hp
        simp at hp
      · rw [show toPixels ChanelMode.Rgba (r :: g :: b :: a :: rest') =
          QoiRGBA.new r g b a :: toPixels ChanelMode.Rgba rest' from rfl] at hp
        rcases List.mem_cons.mp hp with h | h
        · subst h
          exact ⟨hB r (by simp), hB g (by simp), hB b (by simp), hB a (by simp)⟩
        · exact toPixels_bound ChanelMode.Rgba rest'
            (fun x hx => hB x (by simp [hx])) p h
  | [] => by intro _ p hp; cases ch <;> simp [toPixels] at hp
  | [x] => by intro _ p hp; cases ch <;> simp [toPixels] at hp
  | [x, y] => by intro _ p hp; cases ch <;> simp [toPixels] at hp

/-- Big-endian 32-bit round trip. -/
theorem from_be32_be32 (n : Nat) (h : n < 2 ^ 32) :
    from_be32 (n / 2 ^ 24 % 256) (n / 2 ^ 16 % 256) (n / 2 ^ 8 % 256) (n % 256) = n := by
  unfold from_be32
  omega

/-- The seed pixel hashes to slot 53. -/
theorem hash_seed : color_hash seedPixel % 64 = 53 := by decide

/-- The zero pixel hashes to slot 0. -/
theorem hash_zero : color_hash zeroPixel % 64 = 0 := by decide

/-- `getD` after setting the same slot. -/
theorem getD_set_self (l : List QoiRGBA) (i : Nat) (v : QoiRGBA)
    (h : i < l.length) : (l.set i v).getD i zeroPixel = v := by
  rw [List.getD_eq_getElem?_getD, List.getElem?_set_self (by simpa using h)]
  rfl

/-- `getD` after setting a different slot. -/
theorem getD_set_other (l : List QoiRGBA) (i j : Nat) (v : QoiRGBA)
    (hne : i ≠ j) : (l.set i v).getD j zeroPixel = l.getD j zeroPixel := by
  rw [List.getD_eq_getElem?_getD, List.getElem?_set_ne hne,
    ← List.getD_eq_getElem?_getD]

/-- Setting a bounded pixel preserves cache boundedness. -/
theorem boundCache_set (l : List QoiRGBA) (i : Nat) (v : QoiRGBA)
    (hl : ∀ p ∈ l, PixBound p) (hv : PixBound v) :
    ∀ p ∈ l.set i v, PixBound p := by
  intro p hp
  rcases List.mem_or_eq_of_mem_set hp with h | h
  · exact hl p h
  · subst h; exact hv

/-- A `getD` value of a bounded cache is bounded. -/
theorem boundCache_getD (l : List QoiRGBA) (i : Nat)
    (hl : ∀ p ∈ l, PixBound p) (hi : i < l.length) :
    PixBound (l.getD i zeroPixel) := by
  rw [List.getD_eq_getElem?_getD, List.getElem?_eq_getElem (by simpa using hi)]
  exact hl _ (List.getElem_mem _)

/-- The invariant is preserved by the decoder's cache write after the
encoder has processed a differing pixel through `encodeOp`. -/
theorem SimInv_step (p prev : QoiRGBA) (ce cd : List QoiRGBA)
    (hInv : SimInv prev ce cd) (hbp : PixBound p) :
    SimInv p (encodeOp ce p prev).2 (cd.set (color_hash p % 64) p) := by
  obtain ⟨hce, hcd, hbce, hbcd, hslots, hprev⟩ := hInv
  have hlt : color_hash p % 64 < 64 := Nat.mod_lt _ (by norm_num)
  unfold encodeOp
  by_cases hhit : ce.getD (color_hash p % 64) zeroPixel = p
  · rw [if_pos hhit]
    refine ⟨hce, by simp [hcd], hbce, boundCache_set _ _ _ hbcd hbp, ?_, ?_⟩
    · intro i hi
      by_cases hij : color_hash p % 64 = i
      · subst hij
        left
        rw [getD_set_self cd _ _ (by omega), hhit]
      · rw [getD_set_other cd _ _ _ hij]
        exact hslots i hi
    · left
      exact hhit
  · rw [if_neg hhit]
    dsimp only
    split
    · refine ⟨by simp [hce], by simp [hcd], boundCache_set _ _ _ hbce hbp,
        boundCache_set _ _ _ hbcd hbp, ?_, ?_⟩
      · intro i hi
        by_cases hij : color_hash p % 64 = i
        · subst hij
          left
          rw [getD_set_self cd _ _ (by omega), getD_set_self ce _ _ (by omega)]
        · rw [getD_set_other cd _ _ _ hij, getD_set_other ce _ _ _ hij]
          exact hslots i hi
      · left
        exact getD_set_self ce _ _ (by omega)
    · refine ⟨by simp [hce], by simp [hcd], boundCache_set _ _ _ hbce hbp,
        boundCache_set _ _ _ hbcd hbp, ?_, ?_⟩
      · intro i hi
        by_cases hij : color_hash p % 64 = i
        · subst hij
          left
          rw [getD_set_self cd _ _ (by omega), getD_set_self ce _ _ (by omega)]
        · rw [getD_set_other cd _ _ _ hij, getD_set_other ce _ _ _ hij]
          exact hslots i hi
      · left
        exact getD_set_self ce _ _ (by omega)

/-- The invariant is preserved by the decoder's cache write on a run op
(writing the current previous pixel to its own hash slot). -/
theorem SimInv_runwrite (prev : QoiRGBA) (ce cd : List QoiRGBA)
    (hInv : SimInv prev ce cd) (hbprev : PixBound prev) :
    SimInv prev ce (cd.set (color_hash prev % 64) prev) := by
  obtain ⟨hce, hcd, hbce, hbcd, hslots, hprev⟩ := hInv
  refine ⟨hce, by simp [hcd], hbce, boundCache_set _ _ _ hbcd hbprev, ?_, hprev⟩
  intro i hi
  by_cases hij : color_hash prev % 64 = i
  · subst hij
    rcases hprev with h | ⟨hseed, hzero⟩
    · left
      rw [getD_set_self cd _ _ (by omega), h]
    · right
      subst hseed
      exact ⟨rfl, getD_set_self cd _ _ (by omega), hzero⟩
  · rw [getD_set_other cd _ _ _ hij]
    exact hslots i hi

/-- A pending decoder run of `n` emits `n` copies of the current pixel and
then continues. -/
theorem decodeLoop_run (ch : ChanelMode) : ∀ (n fuel : Nat)
    (cache : List QoiRGBA) (p : QoiRGBA) (data out rest : List Nat),
    decodeLoop ch fuel ⟨cache, p, 0⟩ data = .ok (out, rest) →
    decodeLoop ch (n + fuel) ⟨cache, p, n⟩ data =
      .ok (flattenPixels ch (List.replicate n p) ++ out, rest) := by
  intro n
  induction n with
  | zero =>
    intro fuel cache p data out rest h
    simpa using h
  | succ m ih =>
    intro fuel cache p data out rest h
    have hrec := ih fuel cache p data out rest h
    rw [show m + 1 + fuel = m + fuel + 1 by omega]
    show decodeLoop ch (m + fuel + 1) ⟨cache, p, m + 1⟩ data = _
    rw [decodeLoop, if_pos (by dsimp only; omega)]
    dsimp only
    rw [show m + 1 - 1 = m from rfl, hrec]
    rw [show List.replicate (m + 1) p = p :: List.replicate m p from rfl]
    rw [show flattenPixels ch (p :: List.replicate m p) =
      pushPixel ch p ++ flattenPixels ch (List.replicate m p) from rfl]
    rw [List.append_assoc]

/-- `get?` on an in-range slot returns the `getD` value. -/
theorem get?_eq_some_getD (l : List QoiRGBA) (i : Nat) (h : i < l.length) :
    l.get? i = some (l.getD i zeroPixel) := by
  rw [List.get?_eq_getElem?, List.getElem?_eq_getElem (by simpa using h),
    List.getD_eq_getElem?_getD, List.getElem?_eq_getElem (by simpa using h)]
  rfl

/-- `i8_as_u8` of a small nonnegative value is small. -/
theorem i8_as_u8_lt_of (z : Int) (n : Nat) (h0 : 0 ≤ z) (hn : z < n)
    (hn' : n ≤ 256) : i8_as_u8 z < n := by
  unfold i8_as_u8
  omega

/-- One decoder iteration from a zero-run state: read the op byte, apply the
op, write the cache, push the pixel, continue. -/
theorem decodeLoop_step_resolve (ch : ChanelMode) (fuel : Nat)
    (cd : List QoiRGBA) (prev p : QoiRGBA) (b : Nat) (X bs out rest : List Nat)
    (hop : decodeOp b ⟨cd, prev, 0⟩ X = .ok (⟨cd, p, 0⟩, bs))
    (hrec : decodeLoop ch fuel ⟨cd.set (color_hash p % 64) p, p, 0⟩ bs =
      .ok (out, rest)) :
    decodeLoop ch (fuel + 1) ⟨cd, prev, 0⟩ (b :: X) =
      .ok (pushPixel ch p ++ out, rest) := by
  rw [decodeLoop, if_neg (show ¬(0 > 0) by omega)]
  simp only [readU8]
  rw [hop]
  dsimp only
  rw [hrec]

/-- The index op byte decodes to the cached pixel. -/
theorem hop_index (cd : List QoiRGBA) (prev p : QoiRGBA) (bs : List Nat)
    (hlen : cd.length = 64) (hget : cd.getD (color_hash p % 64) zeroPixel = p) :
    decodeOp (QOI_OP_INDEX ||| (color_hash p % 64)) ⟨cd, prev, 0⟩ bs =
      .ok (⟨cd, p, 0⟩, bs) := by
  have hlt : color_hash p % 64 < 64 := Nat.mod_lt _ (by norm_num)
  obtain ⟨h0, hfe, hff, hmask⟩ := idx_byte_facts (color_hash p % 64) hlt
  unfold decodeOp
  rw [h0, if_neg hfe, if_neg hff, if_pos hmask]
  rw [get?_eq_some_getD cd _ (by omega), hget]

/-- The full-RGB op bytes decode to the pixel (alpha unchanged). -/
theorem hop_rgb (cd : List QoiRGBA) (prev p : QoiRGBA) (bs : List Nat)
    (halpha : p.a = prev.a) :
    decodeOp QOI_OP_RGB ⟨cd, prev, 0⟩ (p.r :: p.g :: p.b :: bs) =
      .ok (⟨cd, p, 0⟩, bs) := by
  have hpix : (⟨p.r, p.g, p.b, prev.a⟩ : QoiRGBA) = p := by rw [← halpha]
  unfold decodeOp
  rw [if_pos rfl]
  dsimp only
  rw [hpix]

/-- The full-RGBA op bytes decode to the pixel. -/
theorem hop_rgba (cd : List QoiRGBA) (prev p : QoiRGBA) (bs : List Nat) :
    decodeOp QOI_OP_RGBA ⟨cd, prev, 0⟩ (p.r :: p.g :: p.b :: p.a :: bs) =
      .ok (⟨cd, p, 0⟩, bs) := by
  unfold decodeOp
  rw [if_neg (by decide), if_pos rfl]

/-- The diff op byte decodes to the pixel when each delta is congruent to
the true channel difference and lies in the diff range. -/
theorem hop_diff (cd : List QoiRGBA) (prev p : QoiRGBA) (bs : List Nat)
    (dr dg db : Int) (hbp : PixBound p) (hbprev : PixBound prev)
    (halpha : p.a = prev.a)
    (hcr : dr % 256 = ((p.r : Int) - prev.r) % 256)
    (hcg : dg % 256 = ((p.g : Int) - prev.g) % 256)
    (hcb : db % 256 = ((p.b : Int) - prev.b) % 256)
    (hr1 : -2 ≤ dr) (hr2 : dr ≤ 1) (hg1 : -2 ≤ dg) (hg2 : dg ≤ 1)
    (hb1 : -2 ≤ db) (hb2 : db ≤ 1) :
    decodeOp (QOI_OP_DIFF ||| i8_as_u8 (dr + 2) <<< 4 |||
        i8_as_u8 (dg + 2) <<< 2 ||| i8_as_u8 (db + 2)) ⟨cd, prev, 0⟩ bs =
      .ok (⟨cd, p, 0⟩, bs) := by
  have har : i8_as_u8 (dr + 2) < 4 := i8_as_u8_lt_of _ _ (by omega) (by omega) (by norm_num)
  have hag : i8_as_u8 (dg + 2) < 4 := i8_as_u8_lt_of _ _ (by omega) (by omega) (by norm_num)
  have hab : i8_as_u8 (db + 2) < 4 := i8_as_u8_lt_of _ _ (by omega) (by omega) (by norm_num)
  obtain ⟨hfe, hff, hmask, hxr, hxg, hxb⟩ := diff_byte_facts _ _ _ har hag hab
  have hdr : u8_wrapping_add_signed prev.r
      (toI8 ((QOI_OP_DIFF ||| i8_as_u8 (dr + 2) <<< 4 |||
        i8_as_u8 (dg + 2) <<< 2 ||| i8_as_u8 (db + 2)) >>> 4 &&& 0x03) - 2) = p.r := by
    rw [hxr, toI8_i8_as_u8 _ (by omega) (by omega),
      show dr + 2 - 2 = dr by ring]
    exact u8_wrapping_add_signed_eq _ _ _ hbp.1 hbprev.1 hcr
  have hdg : u8_wrapping_add_signed prev.g
      (toI8 ((QOI_OP_DIFF ||| i8_as_u8 (dr + 2) <<< 4 |||
        i8_as_u8 (dg + 2) <<< 2 ||| i8_as_u8 (db + 2)) >>> 2 &&& 0x03) - 2) = p.g := by
    rw [hxg, toI8_i8_as_u8 _ (by omega) (by omega),
      show dg + 2 - 2 = dg by ring]
    exact u8_wrapping_add_signed_eq _ _ _ hbp.2.1 hbprev.2.1 hcg
  have hdb : u8_wrapping_add_signed prev.b
      (toI8 ((QOI_OP_DIFF ||| i8_as_u8 (dr + 2) <<< 4 |||
        i8_as_u8 (dg + 2) <<< 2 ||| i8_as_u8 (db + 2)) &&& 0x03) - 2) = p.b := by
    rw [hxb, toI8_i8_as_u8 _ (by omega) (by omega),
      show db + 2 - 2 = db by ring]
    exact u8_wrapping_add_signed_eq _ _ _ hbp.2.2.1 hbprev.2.2.1 hcb
  unfold decodeOp
  rw [if_neg hfe, if_neg hff, if_neg (by rw [hmask]; decide), if_pos hmask]
  dsimp only
  rw [hdr, hdg, hdb, ← halpha]

/-- Componentwise equality of pixels. -/
theorem QoiRGBA_ext (x y : QoiRGBA) (h1 : x.r = y.r) (h2 : x.g = y.g)
    (h3 : x.b = y.b) (h4 : x.a = y.a) : x = y := by
  cases x; cases y; simp_all

/-- The luma op bytes decode to the pixel when the green delta and the two
relative deltas are congruent to the true differences and in range. -/
theorem hop_luma (cd : List QoiRGBA) (prev p : QoiRGBA) (bs : List Nat)
    (dg dgdr dgdb : Int) (hbp : PixBound p) (hbprev : PixBound prev)
    (halpha : p.a = prev.a)
    (hcg : dg % 256 = ((p.g : Int) - prev.g) % 256)
    (hcr : (dg + dgdr) % 256 = ((p.r : Int) - prev.r) % 256)
    (hcb : (dg + dgdb) % 256 = ((p.b : Int) - prev.b) % 256)
    (hg1 : -32 ≤ dg) (hg2 : dg ≤ 31) (hr1 : -8 ≤ dgdr) (hr2 : dgdr ≤ 7)
    (hb1 : -8 ≤ dgdb) (hb2 : dgdb ≤ 7) :
    decodeOp (QOI_OP_LUMA ||| i8_as_u8 (dg + 32)) ⟨cd, prev, 0⟩
        ((i8_as_u8 (dgdr + 8) <<< 4 ||| i8_as_u8 (dgdb + 8)) :: bs) =
      .ok (⟨cd, p, 0⟩, bs) := by
  have had : i8_as_u8 (dg + 32) < 64 := i8_as_u8_lt_of _ _ (by omega) (by omega) (by norm_num)
  have har : i8_as_u8 (dgdr + 8) < 16 := i8_as_u8_lt_of _ _ (by omega) (by omega) (by norm_num)
  have hab : i8_as_u8 (dgdb + 8) < 16 := i8_as_u8_lt_of _ _ (by omega) (by omega) (by norm_num)
  obtain ⟨hfe, hff, hmask, hlow⟩ := luma1_byte_facts _ had
  obtain ⟨hhi2, hlo2⟩ := luma2_byte_facts _ _ har hab
  unfold decodeOp
  rw [if_neg hfe, if_neg hff, if_neg (by rw [hmask]; decide),
    if_neg (by rw [hmask]; decide), if_pos hmask]
  dsimp only
  refine congrArg (fun q => Except.ok ((⟨cd, q, 0⟩ : DecState), bs)) ?_
  refine QoiRGBA_ext _ _ ?_ ?_ ?_ ?_
  · show u8_wrapping_add_signed prev.r _ = p.r
    rw [hlow, hhi2, toI8_i8_as_u8 _ (by omega) (by omega),
      toI8_i8_as_u8 _ (by omega) (by omega)]
    exact u8_wrapping_add_signed_eq _ _ _ hbp.1 hbprev.1 (by omega)
  · show u8_wrapping_add_signed prev.g _ = p.g
    rw [hlow, toI8_i8_as_u8 _ (by omega) (by omega)]
    exact u8_wrapping_add_signed_eq _ _ _ hbp.2.1 hbprev.2.1 (by omega)
  · show u8_wrapping_add_signed prev.b _ = p.b
    rw [hlow, hlo2, toI8_i8_as_u8 _ (by omega) (by omega),
      toI8_i8_as_u8 _ (by omega) (by omega)]
    exact u8_wrapping_add_signed_eq _ _ _ hbp.2.2.1 hbprev.2.2.1 (by omega)
  · exact halpha.symm

/-- Decoding the op bytes the encoder emits for a differing pixel recovers
exactly that pixel and continues in the decoder state whose cache was
written at the pixel's hash slot. -/
theorem encodeOp_decode_sim (ch : ChanelMode) (p prev : QoiRGBA)
    (ce cd : List QoiRGBA) (hInv : SimInv prev ce cd)
    (hbp : PixBound p) (hbprev : PixBound prev)
    (fuel : Nat) (bs out rest : List Nat)
    (hrec : decodeLoop ch fuel ⟨cd.set (color_hash p % 64) p, p, 0⟩ bs =
      .ok (out, rest)) :
    decodeLoop ch (fuel + 1) ⟨cd, prev, 0⟩ ((encodeOp ce p prev).1 ++ bs) =
      .ok (pushPixel ch p ++ out, rest) := by
  obtain ⟨hce, hcd, hbce, hbcd, hslots, hprevI⟩ := hInv
  have hlt : color_hash p % 64 < 64 := Nat.mod_lt _ (by norm_num)
  by_cases hhit : ce.getD (color_hash p % 64) zeroPixel = p
  · have hbytes : (encodeOp ce p prev).1 =
        [QOI_OP_INDEX ||| (color_hash p % 64)] := by
      unfold encodeOp
      rw [if_pos hhit]
    rw [hbytes, List.singleton_append]
    have hcdval : cd.getD (color_hash p % 64) zeroPixel = p := by
      rcases hslots _ hlt with hsync | ⟨hI, hcdI, hceI⟩
      · rw [hsync, hhit]
      · exfalso
        rw [hceI] at hhit
        have h0 : color_hash p % 64 = 0 := by rw [← hhit]; exact hash_zero
        rw [hash_seed] at hI
        omega
    exact decodeLoop_step_resolve ch fuel cd prev p _ bs bs out rest
      (hop_index cd prev p bs hcd hcdval) hrec
  · by_cases halpha : p.a = prev.a
    · have hbytes : (encodeOp ce p prev).1 = encodeDiffBytes p prev := by
        unfold encodeOp
        rw [if_neg hhit]
        dsimp only
        rw [if_pos halpha]
      rw [hbytes]
      unfold encodeDiffBytes
      dsimp only
      by_cases hdiff : -2 ≤ toI8 (u8_wrapping_sub p.r prev.r) ∧
          toI8 (u8_wrapping_sub p.r prev.r) ≤ 1 ∧
          -2 ≤ toI8 (u8_wrapping_sub p.g prev.g) ∧
          toI8 (u8_wrapping_sub p.g prev.g) ≤ 1 ∧
          -2 ≤ toI8 (u8_wrapping_sub p.b prev.b) ∧
          toI8 (u8_wrapping_sub p.b prev.b) ≤ 1
      · rw [if_pos hdiff, List.singleton_append]
        exact decodeLoop_step_resolve ch fuel cd prev p _ bs bs out rest
          (hop_diff cd prev p bs _ _ _ hbp hbprev halpha
            (toI8_wrapping_sub_mod _ _ hbp.1 hbprev.1)
            (toI8_wrapping_sub_mod _ _ hbp.2.1 hbprev.2.1)
            (toI8_wrapping_sub_mod _ _ hbp.2.2.1 hbprev.2.2.1)
            hdiff.1 hdiff.2.1 hdiff.2.2.1 hdiff.2.2.2.1 hdiff.2.2.2.2.1
            hdiff.2.2.2.2.2) hrec
      · rw [if_neg hdiff]
        by_cases hluma : -8 ≤ i8_wrapping_sub (toI8 (u8_wrapping_sub p.r prev.r))
              (toI8 (u8_wrapping_sub p.g prev.g)) ∧
            i8_wrapping_sub (toI8 (u8_wrapping_sub p.r prev.r))
              (toI8 (u8_wrapping_sub p.g prev.g)) ≤ 7 ∧
            -8 ≤ i8_wrapping_sub (toI8 (u8_wrapping_sub p.b prev.b))
              (toI8 (u8_wrapping_sub p.g prev.g)) ∧
            i8_wrapping_sub (toI8 (u8_wrapping_sub p.b prev.b))
              (toI8 (u8_wrapping_sub p.g prev.g)) ≤ 7 ∧
            -32 ≤ toI8 (u8_wrapping_sub p.g prev.g) ∧
            toI8 (u8_wrapping_sub p.g prev.g) ≤ 31
        · rw [if_pos hluma]
          have w2r : toI8 (u8_wrapping_sub p.r prev.r) % 256 =
              ((p.r : Int) - prev.r) % 256 :=
            toI8_wrapping_sub_mod _ _ hbp.1 hbprev.1
          have w2g : toI8 (u8_wrapping_sub p.g prev.g) % 256 =
              ((p.g : Int) - prev.g) % 256 :=
            toI8_wrapping_sub_mod _ _ hbp.2.1 hbprev.2.1
          have w2b : toI8 (u8_wrapping_sub p.b prev.b) % 256 =
              ((p.b : Int) - prev.b) % 256 :=
            toI8_wrapping_sub_mod _ _ hbp.2.2.1 hbprev.2.2.1
          have w1r := i8_wrapping_sub_mod (toI8 (u8_wrapping_sub p.r prev.r))
            (toI8 (u8_wrapping_sub p.g prev.g))
          have w1b := i8_wrapping_sub_mod (toI8 (u8_wrapping_sub p.b prev.b))
            (toI8 (u8_wrapping_sub p.g prev.g))
          exact decodeLoop_step_resolve ch fuel cd prev p _ _ bs out rest
            (hop_luma cd prev p bs _ _ _ hbp hbprev halpha
              w2g (by omega) (by omega)
              hluma.2.2.2.2.1 hluma.2.2.2.2.2 hluma.1 hluma.2.1
              hluma.2.2.1 hluma.2.2.2.1) hrec
        · rw [if_neg hluma]
          exact decodeLoop_step_resolve ch fuel cd prev p QOI_OP_RGB
            (p.r :: p.g :: p.b :: bs) bs out rest (hop_rgb cd prev p bs halpha)
            hrec
    · have hbytes : (encodeOp ce p prev).1 =
          [QOI_OP_RGBA, p.r, p.g, p.b, p.a] := by
        unfold encodeOp
        rw [if_neg hhit]
        dsimp only
        rw [if_neg halpha]
      rw [hbytes]
      exact decodeLoop_step_resolve ch fuel cd prev p QOI_OP_RGBA
        (p.r :: p.g :: p.b :: p.a :: bs) bs out rest (hop_rgba cd prev p bs)
        hrec

/-- The run op byte decodes to a pending run of `n` with the pixel kept. -/
theorem hop_run (cd : List QoiRGBA) (prev : QoiRGBA) (bs : List Nat)
    (n : Nat) (hn : n < 62) :
    decodeOp (QOI_OP_RUN ||| n) ⟨cd, prev, 0⟩ bs = .ok (⟨cd, prev, n⟩, bs) := by
  obtain ⟨hfe, hff, hmask, hlow⟩ := run_byte_facts n hn
  unfold decodeOp
  rw [if_neg hfe, if_neg hff, if_neg (by rw [hmask]; decide),
    if_neg (by rw [hmask]; decide), if_neg (by rw [hmask]; decide),
    if_pos hmask]
  dsimp only
  rw [hlow]

/-- One decoder iteration reading a run byte: the current pixel is pushed,
the cache written at its hash slot, and the loop continues with the pending
run counter. -/
theorem decodeLoop_step_run (ch : ChanelMode) (fuel : Nat)
    (cd : List QoiRGBA) (prev : QoiRGBA) (n : Nat) (hn : n < 62)
    (X out rest : List Nat)
    (hrec : decodeLoop ch fuel ⟨cd.set (color_hash prev % 64) prev, prev, n⟩ X =
      .ok (out, rest)) :
    decodeLoop ch (fuel + 1) ⟨cd, prev, 0⟩ ((QOI_OP_RUN ||| n) :: X) =
      .ok (pushPixel ch prev ++ out, rest) := by
  rw [decodeLoop, if_neg (show ¬(0 > 0) by omega)]
  simp only [readU8]
  rw [hop_run cd prev X n hn]
  dsimp only
  rw [hrec]

/-- Flattening a nonempty replicate, head form. -/
theorem flatten_replicate_head (ch : ChanelMode) (n : Nat) (p : QoiRGBA) :
    flattenPixels ch (List.replicate (n + 1) p) =
      pushPixel ch p ++ flattenPixels ch (List.replicate n p) := rfl

/-- Flattening a nonempty replicate, tail form. -/
theorem flatten_replicate_tail (ch : ChanelMode) (n : Nat) (p : QoiRGBA) :
    flattenPixels ch (List.replicate (n + 1) p) =
      flattenPixels ch (List.replicate n p) ++ pushPixel ch p := by
  rw [List.replicate_succ', flattenPixels_append]
  rw [show flattenPixels ch [p] = pushPixel ch p ++ [] from rfl, List.append_nil]

/-- Unfolding equation of the encoder loop. -/
theorem encodeLoop_cons (p : QoiRGBA) (L : List QoiRGBA) (st : EncState) :
    encodeLoop (p :: L) st = (encodePixelStep st p L.isEmpty).1 ++
      encodeLoop L (encodePixelStep st p L.isEmpty).2 := rfl

/-- The encoder step on a repeated pixel that flushes the run. -/
theorem encodePixelStep_run_flush (st : EncState) (p : QoiRGBA) (isLast : Bool)
    (hp : p = st.pixel_previous) (h : st.run + 1 = 62 ∨ isLast = true) :
    encodePixelStep st p isLast = ([QOI_OP_RUN ||| st.run], ⟨p, st.index, 0⟩) := by
  unfold encodePixelStep
  rw [if_pos hp]
  dsimp only
  rw [if_pos h]
  simp

/-- The encoder step on a repeated pixel that extends the run silently. -/
theorem encodePixelStep_run_cont (st : EncState) (p : QoiRGBA) (isLast : Bool)
    (hp : p = st.pixel_previous) (h : ¬(st.run + 1 = 62 ∨ isLast = true)) :
    encodePixelStep st p isLast = ([], ⟨p, st.index, st.run + 1⟩) := by
  unfold encodePixelStep
  rw [if_pos hp]
  dsimp only
  rw [if_neg h]

/-- The encoder step on a differing pixel: pending flush then the op bytes. -/
theorem encodePixelStep_ne (st : EncState) (p : QoiRGBA) (isLast : Bool)
    (hp : ¬ p = st.pixel_previous) :
    encodePixelStep st p isLast =
      ((if st.run > 0 then [QOI_OP_RUN ||| (st.run - 1)] else []) ++
        (encodeOp st.index p st.pixel_previous).1,
       ⟨p, (encodeOp st.index p st.pixel_previous).2, 0⟩) := by
  unfold encodePixelStep
  rw [if_neg hp]

/-- A replicate followed by one more copy, rotated. -/
theorem replicate_append_cons (n : Nat) (a : QoiRGBA) (l : List QoiRGBA) :
    List.replicate n a ++ a :: l = a :: (List.replicate n a ++ l) := by
  rw [show (a :: l) = [a] ++ l from rfl, ← List.append_assoc,
    ← List.replicate_succ', List.replicate_succ, List.cons_append]

/-- Main simulation: running the decoder loop on the encoder's output, from
caches coupled by `SimInv` and with a pending encoder run of `run`, yields
exactly the pending copies of the previous pixel followed by the remaining
pixel list, leaving the trailing stream untouched. -/
theorem encode_decode_sim (ch : ChanelMode) : ∀ (L : List QoiRGBA)
    (prev : QoiRGBA) (ce cd : List QoiRGBA) (run : Nat) (rest : List Nat),
    SimInv prev ce cd → (∀ p ∈ L, PixBound p) → PixBound prev →
    run ≤ 61 → (L = [] → run = 0) →
    decodeLoop ch (run + L.length) ⟨cd, prev, 0⟩
      (encodeLoop L ⟨prev, ce, run⟩ ++ rest) =
      .ok (flattenPixels ch (List.replicate run prev ++ L), rest) := by
  intro L
  induction L with
  | nil =>
    intro prev ce cd run rest hInv hL hbprev hrun hempty
    have h0 := hempty rfl
    subst h0
    rfl
  | cons p L' ih =>
    intro prev ce cd run rest hInv hL hbprev hrun hempty
    have hbp : PixBound p := hL p (List.mem_cons_self _ _)
    have hL' : ∀ q ∈ L', PixBound q := fun q hq => hL q (List.mem_cons_of_mem _ hq)
    simp only [List.length_cons]
    rw [encodeLoop_cons]
    by_cases hpe : p = prev
    · subst hpe
      by_cases hstop : run + 1 = 62 ∨ L'.isEmpty = true
      · rw [encodePixelStep_run_flush ⟨p, ce, run⟩ p L'.isEmpty rfl hstop]
        dsimp only
        have hIH := ih p ce (cd.set (color_hash p % 64) p) 0 rest
          (SimInv_runwrite p ce cd hInv hbp) hL' hbp (by omega) (fun _ => rfl)
        simp only [Nat.zero_add, List.replicate_zero, List.nil_append] at hIH
        have hR := decodeLoop_run ch run L'.length
          (cd.set (color_hash p % 64) p) p _ _ rest hIH
        have hS := decodeLoop_step_run ch (run + L'.length) cd p run
          (by omega) _ _ rest hR
        rw [replicate_append_cons,
          show flattenPixels ch (p :: (List.replicate run p ++ L')) =
            pushPixel ch p ++ flattenPixels ch (List.replicate run p ++ L')
            from rfl,
          flattenPixels_append]
        exact hS
      · rw [encodePixelStep_run_cont ⟨p, ce, run⟩ p L'.isEmpty rfl hstop]
        dsimp only
        have h62 : run + 1 ≠ 62 := fun h => hstop (Or.inl h)
        have hne : L' ≠ [] := by
          intro h
          exact hstop (Or.inr (by rw [h]; rfl))
        have hIH := ih p ce cd (run + 1) rest hInv hL' hbp (by omega)
          (fun h => absurd h hne)
        rw [List.nil_append,
          show run + (L'.length + 1) = run + 1 + L'.length by omega,
          show List.replicate run p ++ p :: L' = List.replicate (run + 1) p ++ L'
            from by rw [replicate_append_cons, List.replicate_succ,
              List.cons_append]]
        exact hIH
    · rw [encodePixelStep_ne ⟨prev, ce, run⟩ p L'.isEmpty hpe]
      dsimp only
      rcases Nat.eq_zero_or_pos run with hr0 | hrpos
      · subst hr0
        rw [if_neg (show ¬(0 > 0) by omega), List.nil_append]
        have hIH := ih p (encodeOp ce p prev).2 (cd.set (color_hash p % 64) p)
          0 rest (SimInv_step p prev ce cd hInv hbp) hL' hbp (by omega)
          (fun _ => rfl)
        simp only [Nat.zero_add, List.replicate_zero, List.nil_append] at hIH ⊢
        have hstep := encodeOp_decode_sim ch p prev ce cd hInv hbp hbprev
          L'.length (encodeLoop L' ⟨p, (encodeOp ce p prev).2, 0⟩ ++ rest)
          (flattenPixels ch L') rest hIH
        rw [show flattenPixels ch (p :: L') =
            pushPixel ch p ++ flattenPixels ch L' from rfl,
          List.append_assoc]
        exact hstep
      · obtain ⟨m, hm⟩ : ∃ m, run = m + 1 := ⟨run - 1, by omega⟩
        subst hm
        rw [if_pos hrpos]
        have hone : SimInv prev ce (cd.set (color_hash prev % 64) prev) :=
          SimInv_runwrite prev ce cd hInv hbprev
        have hIH := ih p (encodeOp ce p prev).2
          ((cd.set (color_hash prev % 64) prev).set (color_hash p % 64) p)
          0 rest (SimInv_step p prev ce _ hone hbp) hL' hbp (by omega)
          (fun _ => rfl)
        simp only [Nat.zero_add, List.replicate_zero, List.nil_append] at hIH
        have hstep := encodeOp_decode_sim ch p prev ce
          (cd.set (color_hash prev % 64) prev) hone hbp hbprev
          L'.length (encodeLoop L' ⟨p, (encodeOp ce p prev).2, 0⟩ ++ rest)
          (flattenPixels ch L') rest hIH
        have hR := decodeLoop_run ch m (L'.length + 1)
          (cd.set (color_hash prev % 64) prev) prev _ _ rest hstep
        have hS := decodeLoop_step_run ch (m + (L'.length + 1)) cd prev m
          (by omega) _ _ rest hR
        rw [show m + 1 + (L'.length + 1) = m + (L'.length + 1) + 1 by omega,
          show m + 1 - 1 = m from rfl,
          flattenPixels_append, flatten_replicate_head,
          show flattenPixels ch (p :: L') =
            pushPixel ch p ++ flattenPixels ch L' from rfl,
          List.append_assoc, List.append_assoc, List.append_assoc]
        exact hS

/-- The initial encoder and decoder caches trivially satisfy the coupling
invariant with the shared seed previous pixel. -/
theorem SimInv_init :
    SimInv seedPixel (List.replicate 64 zeroPixel) (List.replicate 64 zeroPixel) := by
  have hz : ∀ i : Nat, (List.replicate 64 zeroPixel).getD i zeroPixel = zeroPixel := by
    intro i
    rw [List.getD_eq_getElem?_getD, List.getElem?_replicate]
    split <;> rfl
  refine ⟨by simp, by simp, ?_, ?_, ?_, ?_⟩
  · intro p hp
    rw [List.eq_of_mem_replicate hp]
    exact ⟨by decide, by decide, by decide, by decide⟩
  · intro p hp
    rw [List.eq_of_mem_replicate hp]
    exact ⟨by decide, by decide, by decide, by decide⟩
  · intro i hi
    left
    rfl
  · right
    exact ⟨rfl, hz _⟩

/-- Decoding a stream carrying a well-formed header: the header fields are
recovered and the body handed to the decoder loop. -/
theorem qoi_decodeAux_encoded (w h : Nat) (ch : ChanelMode) (cs : Colorspace)
    (tail pixels rest : List Nat)
    (hw32 : w < 2 ^ 32) (hh32 : h < 2 ^ 32)
    (hw : w ≠ 0) (hh : h ≠ 0) (hmax : ¬ QOI_PIXELS_MAX / w ≤ h)
    (hloop : decodeLoop ch (stepCount (w * h * ch.toNat) ch.toNat)
        ⟨List.replicate 64 zeroPixel, seedPixel, 0⟩ tail = .ok (pixels, rest)) :
    qoi_decodeAux (QOI_MAGIC ++ be32 w ++ be32 h ++ [ch.toNat, cs.toNat] ++ tail)
      none = .ok ((pixels, ⟨w, h, ch, cs⟩), rest) := by
  have hlist : QOI_MAGIC ++ be32 w ++ be32 h ++ [ch.toNat, cs.toNat] ++ tail =
      0x71 :: 0x6f :: 0x69 :: 0x66 :: (w / 2 ^ 24 % 256) :: (w / 2 ^ 16 % 256) ::
      (w / 2 ^ 8 % 256) :: (w % 256) :: (h / 2 ^ 24 % 256) :: (h / 2 ^ 16 % 256) ::
      (h / 2 ^ 8 % 256) :: (h % 256) :: ch.toNat :: cs.toNat :: tail := rfl
  rw [hlist]
  unfold qoi_decodeAux
  simp only [read4, readU32, readU8]
  rw [if_neg (show ¬(from_be32 0x71 0x6f 0x69 0x66 ≠ from_be32 0x71 0x6f 0x69 0x66)
    from fun hc => hc rfl)]
  rw [from_be32_be32 w hw32, from_be32_be32 h hh32]
  cases ch with
  | Rgb =>
    simp only [ChanelMode.toNat] at hloop ⊢
    simp only [readChannels, readU8]
    cases cs with
    | Srgb =>
      simp only [Colorspace.toNat, readColorspace]
      rw [if_neg (fun hc => hc.elim hw hh), if_neg hmax]
      rw [hloop]
    | Linear =>
      simp only [Colorspace.toNat, readColorspace]
      rw [if_neg (fun hc => hc.elim hw hh), if_neg hmax]
      rw [hloop]
  | Rgba =>
    simp only [ChanelMode.toNat] at hloop ⊢
    simp only [readChannels, readU8]
    cases cs with
    | Srgb =>
      simp only [Colorspace.toNat, readColorspace]
      rw [if_neg (fun hc => hc.elim hw hh), if_neg hmax]
      rw [hloop]
    | Linear =>
      simp only [Colorspace.toNat, readColorspace]
      rw [if_neg (fun hc => hc.elim hw hh), if_neg hmax]
      rw [hloop]

/-- C1: for every descriptor with nonzero width and height whose pixel count
passes the encoder's limit check, and every pixel byte buffer of matching
length `width*height*channels`, `qoi_encode` succeeds, and `qoi_decode` of the
produced byte stream with no forced channel mode succeeds and returns the
original pixel buffer together with the original descriptor (width, height,
channel mode and colorspace all preserved). -/
theorem qoi_roundtrip (P : List Nat) (D : QoiDescriptor)
    (hlen : P.length = D.width * D.height * D.channels.toNat)
    (hbytes : ∀ b ∈ P, b < 256)
    (hw : D.width ≠ 0) (hh : D.height ≠ 0)
    (hmax : ¬ QOI_PIXELS_MAX / D.width ≤ D.height) :
    ∃ B, qoi_encode P D = .ok B ∧ qoi_decode B none = .ok (P, D) := by
  obtain ⟨w, h, ch, cs⟩ := D
  dsimp only at hlen hw hh hmax
  have hwle : w ≤ QOI_PIXELS_MAX := by
    by_contra hcon
    push_neg at hcon
    exact hmax (by rw [Nat.div_eq_of_lt hcon]; exact Nat.zero_le h)
  have hhle : h ≤ QOI_PIXELS_MAX :=
    Nat.le_of_lt (Nat.lt_of_lt_of_le (Nat.lt_of_not_le hmax)
      (Nat.div_le_self QOI_PIXELS_MAX w))
  have hbig : QOI_PIXELS_MAX < 2 ^ 32 := by decide
  have hw32 : w < 2 ^ 32 := Nat.lt_of_le_of_lt hwle hbig
  have hh32 : h < 2 ^ 32 := Nat.lt_of_le_of_lt hhle hbig
  refine ⟨QOI_MAGIC ++ be32 w ++ be32 h ++ [ch.toNat, cs.toNat] ++
    encodeLoop (toPixels ch P) ⟨seedPixel, List.replicate 64 zeroPixel, 0⟩ ++
    QOI_PADDING, ?_, ?_⟩
  · unfold qoi_encode
    dsimp only
    rw [if_neg (fun hc => hc hlen), if_neg (fun hc => hc.elim hw hh),
      if_neg hmax]
  · have hsim := encode_decode_sim ch (toPixels ch P) seedPixel
      (List.replicate 64 zeroPixel) (List.replicate 64 zeroPixel) 0 QOI_PADDING
      SimInv_init (toPixels_bound ch P hbytes)
      ⟨by decide, by decide, by decide, by decide⟩
      (Nat.zero_le 61) (fun _ => rfl)
    rw [Nat.zero_add] at hsim
    have hlenpix : (toPixels ch P).length = w * h :=
      toPixels_length ch (w * h) P hlen
    have hflat : flattenPixels ch (toPixels ch P) = P :=
      flattenPixels_toPixels ch (w * h) P hlen
    rw [List.replicate_zero, List.nil_append, hflat, hlenpix] at hsim
    have hfuel : stepCount (w * h * ch.toNat) ch.toNat = w * h :=
      stepCount_mul (w * h) ch
    have hAux := qoi_decodeAux_encoded w h ch cs
      (encodeLoop (toPixels ch P) ⟨seedPixel, List.replicate 64 zeroPixel, 0⟩ ++
        QOI_PADDING)
      P QOI_PADDING hw32 hh32 hw hh hmax (by rw [hfuel]; exact hsim)
    rw [← List.append_assoc] at hAux
    unfold qoi_decode
    rw [hAux]

/-- C1 witness: a concrete 3-by-1 RGB image round-trips. -/
theorem qoi_roundtrip_witness :
    ∃ B, qoi_encode [0, 0, 1, 10, 20, 30, 10, 20, 30]
        ⟨3, 1, ChanelMode.Rgb, Colorspace.Srgb⟩ = .ok B ∧
      qoi_decode B none = .ok ([0, 0, 1, 10, 20, 30, 10, 20, 30],
        ⟨3, 1, ChanelMode.Rgb, Colorspace.Srgb⟩) :=
  qoi_roundtrip [0, 0, 1, 10, 20, 30, 10, 20, 30]
    ⟨3, 1, ChanelMode.Rgb, Colorspace.Srgb⟩
    (by decide) (by decide) (by decide) (by decide) (by decide)
